import Mathlib

/-!
Verification development for the `verify_ed25519ph` attestation tool
(`scripts/verify_ed25519ph/src/main.rs`).

The Rust source is shallowly embedded below: strings are Lean `String`s
(manipulated through their underlying `List Char`, which coincides with the
Rust byte view on the ASCII inputs the tool handles), byte vectors are
`List Nat`, fallible operations return `Except`, and the one place the Rust
code can panic (a string slice whose start exceeds its end) is modelled as
`Except.error ()`.  The external cryptographic routines of `ed25519-dalek`
and `sha2` are abstracted as fields of a `CryptoOps` record; everything the
tool itself computes (hex codecs, key tables, the audit-output parser, the
message construction of both verification modes, and the stdin driver loop)
is embedded concretely.
-/

/-! ## String utilities (models of the Rust `str` operations used) -/

/-- Model of `u8::to_ascii_lowercase` lifted to chars (only ASCII letters
are affected, exactly as in Rust). -/
def asciiLower (c : Char) : Char :=
  if 'A' ≤ c ∧ c ≤ 'Z' then Char.ofNat (c.toNat + 32) else c

/-- Model of `str::eq_ignore_ascii_case`. -/
def eqIgnoreAsciiCase (a b : String) : Bool :=
  a.data.map asciiLower == b.data.map asciiLower

/-- Model of `char::is_whitespace` (the Unicode `White_Space` property),
used by `str::trim`. -/
def rustIsWs (c : Char) : Bool :=
  let n := c.toNat
  (9 ≤ n ∧ n ≤ 13) || n = 32 || n = 133 || n = 160 || n = 5760 ||
  (8192 ≤ n ∧ n ≤ 8202) || n = 8232 || n = 8233 || n = 8239 || n = 8287 || n = 12288

/-- Model of `str::trim`. -/
def rustTrim (s : String) : String :=
  ⟨((s.data.dropWhile rustIsWs).reverse.dropWhile rustIsWs).reverse⟩

/-- Model of `str::starts_with` for a string pattern. -/
def startsWithS (s p : String) : Bool :=
  p.data.isPrefixOf s.data

/-- Model of `str::strip_prefix` for a string pattern. -/
def dropPre? (s p : String) : Option String :=
  if startsWithS s p then some ⟨s.data.drop p.data.length⟩ else none

/-- Drop the first `n` characters (model of slicing `&s[n..]` at an ASCII
position). -/
def strDrop (s : String) (n : Nat) : String :=
  ⟨s.data.drop n⟩

/-- Take the first `n` characters (model of slicing `&s[..n]` at an ASCII
position). -/
def strTake (s : String) (n : Nat) : String :=
  ⟨s.data.take n⟩

/-- Model of slicing `&s[a..b]`; the caller must separately account for the
panic Rust raises when `a > b`. -/
def strSlice (s : String) (a b : Nat) : String :=
  ⟨(s.data.take b).drop a⟩

/-- Auxiliary scan for `strFind`: the first index at which `pat` occurs. -/
def findSubAux (pat : List Char) : List Char → Nat → Option Nat
  | l, i =>
    if pat.isPrefixOf l then some i
    else
      match l with
      | [] => none
      | _ :: t => findSubAux pat t (i + 1)

/-- Model of `str::find` for a string pattern (first occurrence). -/
def strFind (s pat : String) : Option Nat :=
  findSubAux pat.data s.data 0

/-- Model of `str::find` for a single-char pattern (first occurrence). -/
def strFindChar (s : String) (c : Char) : Option Nat :=
  List.findIdx? (fun x => x = c) s.data

/-- Model of `str::parse::<u32>`: an optional leading `+`, then one or more
ASCII digits, with the value required to fit in 32 bits. -/
def parseU32 (s : String) : Option Nat :=
  let ds := match s.data with
    | '+' :: t => t
    | t => t
  if ds = [] then none
  else if ds.all Char.isDigit then
    let n := ds.foldl (fun a c => a * 10 + (c.toNat - 48)) 0
    if n < 4294967296 then some n else none
  else none

/-! ## Hex codec (model of the `hex` crate) -/

/-- The error type of `hex::decode`. -/
inductive FromHexError where
  | oddLength : FromHexError
  | invalidHexCharacter (c : Char) (index : Nat) : FromHexError
  deriving DecidableEq

/-- The numeric value of one hex digit, accepting `0-9`, `a-f`, `A-F`. -/
def hexVal (c : Char) : Option Nat :=
  if '0' ≤ c ∧ c ≤ '9' then some (c.toNat - 48)
  else if 'a' ≤ c ∧ c ≤ 'f' then some (c.toNat - 87)
  else if 'A' ≤ c ∧ c ≤ 'F' then some (c.toNat - 55)
  else none

/-- Pairwise decoding loop of `hex::decode`; `i` is the index of the first
character of the current pair (used in error reports). -/
def hexDecodeAux : List Char → Nat → Except FromHexError (List Nat)
  | [], _ => .ok []
  | [_], _ => .ok []
  | c1 :: c2 :: rest, i =>
    match hexVal c1 with
    | none => .error (.invalidHexCharacter c1 i)
    | some hi =>
      match hexVal c2 with
      | none => .error (.invalidHexCharacter c2 (i + 1))
      | some lo =>
        match hexDecodeAux rest (i + 2) with
        | .error e => .error e
        | .ok bs => .ok ((hi * 16 + lo) :: bs)

/-- Model of `hex::decode`: rejects odd length first, then decodes pairs. -/
def hexDecode (s : String) : Except FromHexError (List Nat) :=
  if s.data.length % 2 ≠ 0 then .error .oddLength
  else hexDecodeAux s.data 0

/-- Lowercase hex digit for a value below 16. -/
def hexDigitChar (n : Nat) : Char :=
  if n < 10 then Char.ofNat (48 + n) else Char.ofNat (87 + n)

/-- Model of `hex::encode` (lowercase). -/
def hexEncode (bs : List Nat) : String :=
  ⟨bs.flatMap (fun b => [hexDigitChar (b / 16), hexDigitChar (b % 16)])⟩

/-! ## Key tables (the `PUBKEYS` and `TAG_TO_KEY` constants) -/

/-- The `PUBKEYS` table: key slots 0=bao1, 1=bao2, 2=beta, 3=developer,
plus the `dev` alias. -/
def PUBKEYS : List (String × String) :=
  [("bao1", "a87a5f98daabfb512fc3c2e5749b3beb192388d20160a7dd5888fb9da409523a"),
   ("bao2", "79135dc667aff4f7d352b90328788ebf92c7867821388b77370b15194e312888"),
   ("beta", "80979929edd04e40124b52cae9ae54b24bdff72a7b8a004c41065bd1402078a7"),
   ("developer", "1c9beae32aeac87507c18094387eff1c74614282affd8152d871352edf3f58bb"),
   ("dev", "1c9beae32aeac87507c18094387eff1c74614282affd8152d871352edf3f58bb")]

/-- The `TAG_TO_KEY` table mapping audit-output tags to key names. -/
def TAG_TO_KEY : List (String × String) :=
  [("bao1", "bao1"),
   ("bao2", "bao2"),
   ("beta", "beta"),
   ("devl", "developer"),
   ("dev", "developer")]

/-- The errors produced by `resolve_pubkey` (one constructor per `format!`
site in the Rust function). -/
inductive ResolveErr where
  | invalidBuiltinKey (e : FromHexError) : ResolveErr
  | builtinWrongLength : ResolveErr
  | invalidHex (e : FromHexError) : ResolveErr
  | wrongLength (halfLen : Nat) : ResolveErr
  deriving DecidableEq

/-- Model of `resolve_pubkey`: a known name/alias (case insensitively) or a
raw hex string, decoded to exactly 32 bytes. -/
def resolve_pubkey (input : String) : Except ResolveErr (List Nat) :=
  match PUBKEYS.find? (fun p => eqIgnoreAsciiCase input p.1) with
  | some p =>
    match hexDecode p.2 with
    | .error e => .error (.invalidBuiltinKey e)
    | .ok bytes => if bytes.length = 32 then .ok bytes else .error .builtinWrongLength
  | none =>
    match hexDecode input with
    | .error e => .error (.invalidHex e)
    | .ok bytes =>
      if bytes.length = 32 then .ok bytes
      else .error (.wrongLength (input.data.length / 2))

/-- Model of `identify_key`: first registered name whose hex matches the
given bytes. -/
def identify_key (pubkey_bytes : List Nat) : Option String :=
  (PUBKEYS.find? (fun p => eqIgnoreAsciiCase (hexEncode pubkey_bytes) p.2)).map (·.1)

/-- Model of `tag_to_key_name`: trim the tag, then look it up
case-insensitively in `TAG_TO_KEY`. -/
def tag_to_key_name (tag : String) : Option String :=
  (TAG_TO_KEY.find? (fun p => eqIgnoreAsciiCase (rustTrim tag) p.1)).map (·.2)

/-! ## The attestation parser (`StageData`, `parse_key_line`,
`parse_audit_output`) -/

/-- Parsed attestation data for a single stage (the `StageData` struct;
every field starts out `None`, as with `Default`). -/
structure StageData where
  sig : Option String := none
  hash : Option String := none
  key_slot : Option Nat := none
  key_tag : Option String := none
  aad_len : Option Nat := none
  aad : Option String := none
  deriving DecidableEq

/-- `Default::default()` for `StageData`. -/
def StageData.empty : StageData := {}

/-- The `HashMap<String, StageData>` of the parser, modelled as an
association list without duplicate keys. -/
abbrev StageMap := List (String × StageData)

/-- Model of `HashMap::get`. -/
def lookupSD : StageMap → String → Option StageData
  | [], _ => none
  | (k', v) :: rest, k => if k' = k then some v else lookupSD rest k

/-- Model of `map.entry(k).or_default()` followed by a field update `f`:
modify the entry in place if present, insert `f Default::default()`
otherwise. -/
def updateStage : StageMap → String → (StageData → StageData) → StageMap
  | [], k, f => [(k, f StageData.empty)]
  | (k', v) :: rest, k, f =>
    if k' = k then (k', f v) :: rest else (k', v) :: updateStage rest k f

/-- Model of `if let Some(v) = o { map.entry(k).or_default() <- f v }`. -/
def condUpdate (m : StageMap) (o : Option α) (k : String)
    (f : α → StageData → StageData) : StageMap :=
  match o with
  | some v => updateStage m k (fun d => f v d)
  | none => m

/-- The recognized stage names, in the order of the source's loop. -/
def stageNames : List String := ["boot0", "boot1", "loader"]

/-- Model of `parse_key_line`: extract `(slot, tag)` from a line such as
`"Boot0: key 2/true (beta) -> ..."`.  `Except.error ()` models the panic the
Rust code raises when slicing `line[paren_start + 1..paren_end]` with the
first `)` occurring before the first `(`. -/
def parse_key_line (line pre : String) : Except Unit (Option (Nat × String)) :=
  if startsWithS line pre = false then .ok none
  else
    match strFind line "key " with
    | none => .ok none
    | some key_idx =>
      let after_key := strDrop line (key_idx + 4)
      match List.findIdx? (fun c => !c.isDigit) after_key.data with
      | none => .ok none
      | some slot_end =>
        match parseU32 (strTake after_key slot_end) with
        | none => .ok none
        | some slot =>
          match strFindChar line '(' with
          | none => .ok none
          | some paren_start =>
            match strFindChar line ')' with
            | none => .ok none
            | some paren_end =>
              if paren_start + 1 ≤ paren_end then
                .ok (some (slot, strSlice line (paren_start + 1) paren_end))
              else .error ()

/-- The four field-line checks of `parse_audit_output`'s inner loop for one
stage name (`<stage>.sig:`, `<stage>.hash:`, `<stage>.aad_len:`,
`<stage>.aad:`). -/
def applyFieldLines (m : StageMap) (line s : String) : StageMap :=
  condUpdate (condUpdate (condUpdate (condUpdate m
    (dropPre? line (s ++ ".sig:")) s
    (fun rest d => { d with sig := some (rustTrim rest) }))
    (dropPre? line (s ++ ".hash:")) s
    (fun rest d => { d with hash := some (rustTrim rest) }))
    ((dropPre? line (s ++ ".aad_len:")).bind (fun rest => parseU32 (rustTrim rest))) s
    (fun len d => { d with aad_len := some len }))
    (dropPre? line (s ++ ".aad:")) s
    (fun rest d => { d with aad := some (rustTrim rest) })

/-- Recording an extracted `(slot, tag)` pair on a stage record. -/
def keyAssign (p : Nat × String) (d : StageData) : StageData :=
  { d with key_slot := some p.1, key_tag := some p.2 }

/-- One key-annotation check of `parse_audit_output` (for the `prefix`
`"Boot0:"`, `"Boot1:"` or `"Next stage:"` recording on `stage`). -/
def keyLineStep (m : StageMap) (line pre stage : String) : Except Unit StageMap :=
  match parse_key_line line pre with
  | .error e => .error e
  | .ok o => .ok (condUpdate m o stage keyAssign)

/-- The whole body of `parse_audit_output`'s per-line loop: trim, run the
field sub-grammar for each stage, then the three key-annotation checks. -/
def parseLine (m : StageMap) (raw : String) : Except Unit StageMap :=
  let line := rustTrim raw
  let m1 := stageNames.foldl (fun acc s => applyFieldLines acc line s) m
  match keyLineStep m1 line "Boot0:" "boot0" with
  | .error e => .error e
  | .ok m2 =>
    match keyLineStep m2 line "Boot1:" "boot1" with
    | .error e => .error e
    | .ok m3 => keyLineStep m3 line "Next stage:" "loader"

/-- Fold of `parseLine` over the input lines, propagating a panic. -/
def processLines (m : StageMap) : List String → Except Unit StageMap
  | [] => .ok m
  | l :: rest =>
    match parseLine m l with
    | .error e => .error e
    | .ok m' => processLines m' rest

/-- Split a character list at every newline (each `'\n'` terminates a
piece). -/
def splitNl : List Char → List (List Char)
  | [] => [[]]
  | c :: rest =>
    if c = '\n' then [] :: splitNl rest
    else
      match splitNl rest with
      | [] => [[c]]
      | h :: t => (c :: h) :: t

/-- Strip one trailing `'\r'`, as `str::lines` does per line. -/
def stripCR (l : List Char) : List Char :=
  if l.getLast? = some '\r' then l.dropLast else l

/-- Drop a final empty piece (the `split_terminator` behaviour of
`str::lines`). -/
def dropFinEmpty (parts : List (List Char)) : List (List Char) :=
  if parts.getLast? = some [] then parts.dropLast else parts

/-- Model of `str::lines`. -/
def rustLines (s : String) : List String :=
  (dropFinEmpty (splitNl s.data)).map (fun l => (⟨stripCR l⟩ : String))

/-- Model of `parse_audit_output`: scan every line of the input into a
stage map; `Except.error ()` is the propagated panic of `parse_key_line`. -/
def parse_audit_output (input : String) : Except Unit StageMap :=
  processLines [] (rustLines input)

/-! ## The verification engine (`PrecomputedHash`, `verify_single`) -/

/-- The `PrecomputedHash` adapter: a `Digest` implementation holding an
already-finalized 64-byte hash. -/
structure PrecomputedHash where
  hash : List Nat
  deriving DecidableEq

/-- `Update::update` for `PrecomputedHash`: a no-op. -/
def PrecomputedHash.update (p : PrecomputedHash) (_data : List Nat) : PrecomputedHash :=
  p

/-- `FixedOutput::finalize_into` for `PrecomputedHash`: always the stored
hash. -/
def PrecomputedHash.finalize (p : PrecomputedHash) : List Nat :=
  p.hash

/-- `Reset::reset` for `PrecomputedHash`: a no-op. -/
def PrecomputedHash.reset (p : PrecomputedHash) : PrecomputedHash :=
  p

/-- `Default::default()` for `PrecomputedHash`: 64 zero bytes. -/
def PrecomputedHash.defaultPH : PrecomputedHash :=
  ⟨List.replicate 64 0⟩

/-- The external cryptographic routines (`sha2`, `ed25519-dalek`),
abstracted.  `sha256` models `Sha256::new`/`update`/`finalize` applied to a
byte sequence (with its 32-byte output size recorded as an invariant);
`keyParse` models whether `VerifyingKey::from_bytes` succeeds; `edVerify`
models `Verifier::verify` (ordinary Ed25519 over a raw message); and
`edVerifyPh` models the arithmetic of `verify_prehashed` once the supplied
`Digest` has been finalized to 64 bytes (with context `None`). -/
structure CryptoOps where
  sha256 : List Nat → List Nat
  sha256_len : ∀ m, (sha256 m).length = 32
  keyParse : List Nat → Bool
  edVerify : List Nat → List Nat → List Nat → Bool
  edVerifyPh : List Nat → List Nat → List Nat → Bool

/-- Model of `VerifyingKey::verify_prehashed(prehashed_message, None, sig)`
at the `PrecomputedHash` instantiation: dalek first finalizes the supplied
hasher, then runs the prehashed check over the resulting 64 bytes. -/
def verify_prehashed (co : CryptoOps) (pk : List Nat)
    (prehashed_message : PrecomputedHash) (sig : List Nat) : Bool :=
  co.edVerifyPh pk prehashed_message.finalize sig

/-- The errors of `verify_single`, one constructor per `format!` site:
`resolveKey` for a `resolve_pubkey` failure, `invalidHashHex` for
"Invalid hash hex", `hashWrongLength` for "Hash must be 64 bytes, got n",
`invalidSigHex`/`sigWrongLength` for the signature analogues,
`invalidAadHex` for "Invalid AAD hex", `invalidPublicKey` for
"Invalid public key" (a `VerifyingKey::from_bytes` failure), and
`signatureMismatch name` for "name verification failed". -/
inductive VerifyErr where
  | resolveKey (e : ResolveErr) : VerifyErr
  | invalidHashHex (e : FromHexError) : VerifyErr
  | hashWrongLength (halfLen : Nat) : VerifyErr
  | invalidSigHex (e : FromHexError) : VerifyErr
  | sigWrongLength (halfLen : Nat) : VerifyErr
  | invalidAadHex (e : FromHexError) : VerifyErr
  | invalidPublicKey : VerifyErr
  | signatureMismatch (name : String) : VerifyErr
  deriving DecidableEq

/-- The successfully decoded inputs of `verify_single` (pubkey resolved to
32 bytes, hash and signature to 64 bytes each, optional AAD bytes). -/
structure DecodedInputs where
  pubkey_bytes : List Nat
  hash_bytes : List Nat
  sig_bytes : List Nat
  aad_bytes : Option (List Nat)
  deriving DecidableEq

/-- The decode prefix of `verify_single` (its steps before any cryptography,
in source order): resolve the public key, decode the hash to 64 bytes,
decode the signature to 64 bytes, decode the AAD when present and
non-empty. -/
def decode_inputs (pubkey_hex hash_hex sig_hex : String)
    (aad_hex : Option String) : Except VerifyErr DecodedInputs :=
  match resolve_pubkey pubkey_hex with
  | .error e => .error (.resolveKey e)
  | .ok pubkey_bytes =>
    match hexDecode hash_hex with
    | .error e => .error (.invalidHashHex e)
    | .ok hb =>
      if hb.length ≠ 64 then .error (.hashWrongLength (hash_hex.data.length / 2))
      else
        match hexDecode sig_hex with
        | .error e => .error (.invalidSigHex e)
        | .ok sb =>
          if sb.length ≠ 64 then .error (.sigWrongLength (sig_hex.data.length / 2))
          else
            match aad_hex with
            | some h =>
              if h ≠ "" then
                match hexDecode h with
                | .error e => .error (.invalidAadHex e)
                | .ok ab => .ok ⟨pubkey_bytes, hb, sb, some ab⟩
              else .ok ⟨pubkey_bytes, hb, sb, none⟩
            | none => .ok ⟨pubkey_bytes, hb, sb, none⟩

/-- Model of `verify_single`: decode all inputs, pick the mode
(`is_fido2 = aad_bytes.is_some()`), build the verifying key, then either
verify an ordinary signature over `aad ++ SHA256(hash)` (FIDO2 mode) or run
`verify_prehashed` with the `PrecomputedHash` adapter (Ed25519ph mode). -/
def verify_single (co : CryptoOps) (pubkey_hex hash_hex sig_hex : String)
    (aad_hex : Option String) (name : String) : Except VerifyErr Unit :=
  match decode_inputs pubkey_hex hash_hex sig_hex aad_hex with
  | .error e => .error e
  | .ok d =>
    let is_fido2 := d.aad_bytes.isSome
    if co.keyParse d.pubkey_bytes = false then .error .invalidPublicKey
    else
      let result :=
        if is_fido2 then
          let hashed_hash := co.sha256 d.hash_bytes
          let msg := (d.aad_bytes.getD []) ++ hashed_hash
          co.edVerify d.pubkey_bytes msg d.sig_bytes
        else
          verify_prehashed co d.pubkey_bytes ⟨d.hash_bytes⟩ d.sig_bytes
      if result then .ok () else .error (.signatureMismatch name)

/-! ## The stdin driver loop of `main` -/

/-- Why a stage was skipped without reaching `verify_single` after key
resolution (the two `continue`s with an `eprintln!`). -/
inductive SkipReason where
  | unknownTag (tag : String) : SkipReason
  | unknownSlot (slot : Nat) : SkipReason
  deriving DecidableEq

/-- The key-resolution block of `main`'s per-stage loop: a tag, when
recorded, decides alone; otherwise a recorded slot decides; otherwise the
developer key is the fallback. -/
def resolve_stage_key (stage : StageData) : Except SkipReason String :=
  match stage.key_tag with
  | some tag =>
    match tag_to_key_name tag with
    | some key_name => .ok key_name
    | none => .error (.unknownTag tag)
  | none =>
    match stage.key_slot with
    | some slot =>
      if slot = 0 then .ok "bao1"
      else if slot = 1 then .ok "bao2"
      else if slot = 2 then .ok "beta"
      else if slot = 3 then .ok "developer"
      else .error (.unknownSlot slot)
    | none => .ok "developer"

/-- What `main`'s loop does with one requested stage name. -/
inductive StageOutcome where
  | notPresent : StageOutcome
  | incomplete : StageOutcome
  | skipped (r : SkipReason) : StageOutcome
  | verified (passed : Bool) : StageOutcome
  deriving DecidableEq

/-- One iteration of `main`'s stdin loop for `stage_name`: skip a stage
absent from the map, report an incomplete record (missing sig or hash),
skip on unresolved key, otherwise call `verify_single` with the stage's
AAD. -/
def process_stage (co : CryptoOps) (m : StageMap) (stage_name : String) :
    StageOutcome :=
  match lookupSD m stage_name with
  | none => .notPresent
  | some stage =>
    match stage.sig, stage.hash with
    | some sg, some hs =>
      match resolve_stage_key stage with
      | .error r => .skipped r
      | .ok pubkey =>
        let aad := stage.aad
        match verify_single co pubkey hs sg aad stage_name with
        | .ok _ => .verified true
        | .error _ => .verified false
    | _, _ => .incomplete

/-- Only a stage that actually reached `verify_single` pushes onto
`results`. -/
def stage_result (o : StageOutcome) (sn : String) : Option (String × Bool) :=
  match o with
  | .verified p => some (sn, p)
  | _ => none

/-- The requested stages: all three, or the explicitly named one. -/
def stages_to_verify (name : String) : List String :=
  if name = "all" then stageNames else [name]

/-- The observable result of `main`'s stdin path. -/
inductive RunResult where
  | fatalNoInput : RunResult
  | fatalNoData : RunResult
  | panicked : RunResult
  | finished (results : List (String × Bool)) (exitCode : Nat) : RunResult
  deriving DecidableEq

/-- Model of `main`'s stdin path: bail out on empty input, parse (possibly
panicking), bail out on an empty stage map, then verify each requested
stage and exit 0 exactly when every pushed result passed. -/
def main_stdin (co : CryptoOps) (input : String) (nameArg : String) : RunResult :=
  if input = "" then .fatalNoInput
  else
    match parse_audit_output input with
    | .error _ => .panicked
    | .ok stages =>
      if stages = [] then .fatalNoData
      else
        let results := (stages_to_verify nameArg).filterMap
          (fun sn => stage_result (process_stage co stages sn) sn)
        let all_passed := results.all (·.2)
        .finished results (if all_passed then 0 else 1)

/-! ## Characterization-side definitions

These are not translations of further source code; they are the vocabulary
in which the parser theorems below describe what `parse_audit_output`
computes (which line assigns which field of which stage). -/

/-- Right-biased override: a new assignment wins over the previous value. -/
def ov (new old : Option α) : Option α :=
  match new with
  | some v => some v
  | none => old

/-- Left-biased combination of two potential assignments (the later list
segment wins). -/
def ovv (later earlier : Option α) : Option α :=
  match later with
  | some v => some v
  | none => earlier

/-- The value a (trimmed) line assigns to `<s>.sig`, if any. -/
def sigA (s t : String) : Option String :=
  if s ∈ stageNames then (dropPre? t (s ++ ".sig:")).map rustTrim else none

/-- The value a (trimmed) line assigns to `<s>.hash`, if any. -/
def hashA (s t : String) : Option String :=
  if s ∈ stageNames then (dropPre? t (s ++ ".hash:")).map rustTrim else none

/-- The value a (trimmed) line assigns to `<s>.aad_len`, if any. -/
def aadLenA (s t : String) : Option Nat :=
  if s ∈ stageNames then
    (dropPre? t (s ++ ".aad_len:")).bind (fun rest => parseU32 (rustTrim rest))
  else none

/-- The value a (trimmed) line assigns to `<s>.aad`, if any. -/
def aadA (s t : String) : Option String :=
  if s ∈ stageNames then (dropPre? t (s ++ ".aad:")).map rustTrim else none

/-- A successful (non-panicking, matching) key-annotation extraction. -/
def okSome : Except Unit (Option α) → Option α
  | .ok (some x) => some x
  | _ => none

/-- The `(slot, tag)` pair a (trimmed) line records for stage `s`, if any. -/
def keyA (s t : String) : Option (Nat × String) :=
  if s = "boot0" then okSome (parse_key_line t "Boot0:")
  else if s = "boot1" then okSome (parse_key_line t "Boot1:")
  else if s = "loader" then okSome (parse_key_line t "Next stage:")
  else none

/-- Whether a raw input line contributes anything to stage `s`. -/
def lineTouches (s raw : String) : Bool :=
  let t := rustTrim raw
  (sigA s t).isSome || (hashA s t).isSome || (aadLenA s t).isSome ||
    (aadA s t).isSome || (keyA s t).isSome

/-- The effect of one (raw) line on the record of stage `s`. -/
def applyLineStage (s t : String) (d : StageData) : StageData :=
  { sig := ov (sigA s t) d.sig
    hash := ov (hashA s t) d.hash
    key_slot := ov ((keyA s t).map (·.1)) d.key_slot
    key_tag := ov ((keyA s t).map (·.2)) d.key_tag
    aad_len := ov (aadLenA s t) d.aad_len
    aad := ov (aadA s t) d.aad }

/-- The effect of a list of raw lines on the record of stage `s`. -/
def applyLines (s : String) (L : List String) (d : StageData) : StageData :=
  L.foldl (fun d raw => applyLineStage s (rustTrim raw) d) d

/-- Whether an `Except` is an error. -/
def isErr : Except ε α → Bool
  | .error _ => true
  | .ok _ => false

/-- A raw line that does not panic any of the three key-annotation
extractions. -/
def lineOk (raw : String) : Bool :=
  let t := rustTrim raw
  !(isErr (parse_key_line t "Boot0:") || isErr (parse_key_line t "Boot1:") ||
    isErr (parse_key_line t "Next stage:"))

/-- The last assignment an extractor makes over a list of raw lines. -/
def lastOf (f : String → Option α) : List String → Option α
  | [] => none
  | l :: rest =>
    match lastOf f rest with
    | some v => some v
    | none => f l

/-- A concrete instantiation of the abstract cryptographic routines, used
by the closed witness statements. -/
def trivCrypto : CryptoOps where
  sha256 := fun _ => List.replicate 32 0
  sha256_len := fun _ => List.length_replicate 32 0
  keyParse := fun _ => true
  edVerify := fun _ _ _ => false
  edVerifyPh := fun _ _ _ => false

/-! ## Lemmas about the stage map -/

theorem lookupSD_updateStage (m : StageMap) (k j : String)
    (f : StageData → StageData) :
    lookupSD (updateStage m k f) j =
      if j = k then some (f ((lookupSD m k).getD StageData.empty))
      else lookupSD m j := by
  induction m with
  | nil =>
    by_cases h : j = k
    · subst h; simp [updateStage, lookupSD]
    · simp [updateStage, lookupSD, h, Ne.symm h]
  | cons p rest ih =>
    obtain ⟨k', v⟩ := p
    by_cases hk : k' = k
    · subst hk
      by_cases hj : j = k'
      · subst hj; simp [updateStage, lookupSD]
      · simp [updateStage, lookupSD, hj, Ne.symm hj]
    · by_cases hj : j = k
      · subst hj
        have h2 : ¬ k' = j := hk
        simp [updateStage, lookupSD, hk, h2, ih]
      · by_cases hj2 : k' = j
        · subst hj2
          simp [updateStage, lookupSD, hk, hj, ih]
        · simp [updateStage, lookupSD, hk, hj, hj2, ih]

theorem lookupSD_condUpdate (m : StageMap) (o : Option α) (k j : String)
    (f : α → StageData → StageData) :
    lookupSD (condUpdate m o k f) j =
      if j = k then
        match o with
        | some v => some (f v ((lookupSD m k).getD StageData.empty))
        | none => lookupSD m k
      else lookupSD m j := by
  cases o with
  | none =>
    by_cases h : j = k
    · subst h; simp [condUpdate]
    · simp [condUpdate, h]
  | some v => simp [condUpdate, lookupSD_updateStage]

theorem keyLineStep_ok (m m' : StageMap) (line pre stage : String)
    (h : keyLineStep m line pre stage = .ok m') :
    ∃ o, parse_key_line line pre = .ok o ∧ m' = condUpdate m o stage keyAssign := by
  cases hp : parse_key_line line pre with
  | error e => simp [keyLineStep, hp] at h
  | ok o =>
    simp [keyLineStep, hp] at h
    exact ⟨o, rfl, h.symm⟩

theorem parseLine_ok_decomp (m : StageMap) (raw : String) (m' : StageMap)
    (h : parseLine m raw = .ok m') :
    ∃ o0 o1 o2,
      parse_key_line (rustTrim raw) "Boot0:" = .ok o0 ∧
      parse_key_line (rustTrim raw) "Boot1:" = .ok o1 ∧
      parse_key_line (rustTrim raw) "Next stage:" = .ok o2 ∧
      m' = condUpdate (condUpdate (condUpdate
        (applyFieldLines (applyFieldLines (applyFieldLines m (rustTrim raw) "boot0")
          (rustTrim raw) "boot1") (rustTrim raw) "loader")
        o0 "boot0" keyAssign) o1 "boot1" keyAssign) o2 "loader" keyAssign := by
  simp only [parseLine, stageNames, List.foldl] at h
  cases h0 : keyLineStep (applyFieldLines (applyFieldLines
      (applyFieldLines m (rustTrim raw) "boot0") (rustTrim raw) "boot1")
      (rustTrim raw) "loader") (rustTrim raw) "Boot0:" "boot0" with
  | error e => rw [h0] at h; exact absurd h (by simp)
  | ok mA =>
    rw [h0] at h
    dsimp only at h
    cases h1 : keyLineStep mA (rustTrim raw) "Boot1:" "boot1" with
    | error e => rw [h1] at h; exact absurd h (by simp)
    | ok mB =>
      rw [h1] at h
      dsimp only at h
      obtain ⟨oA, hpA, hmA⟩ := keyLineStep_ok _ _ _ _ _ h0
      obtain ⟨oB, hpB, hmB⟩ := keyLineStep_ok _ _ _ _ _ h1
      obtain ⟨oC, hpC, hmC⟩ := keyLineStep_ok _ _ _ _ _ h
      exact ⟨oA, oB, oC, hpA, hpB, hpC, by rw [hmC, hmB, hmA]⟩

theorem lookupSD_applyFieldLines_ne (m : StageMap) (t s0 j : String)
    (h : ¬ j = s0) :
    lookupSD (applyFieldLines m t s0) j = lookupSD m j := by
  simp only [applyFieldLines, lookupSD_condUpdate, if_neg h]

theorem lookupSD_applyFieldLines_self (m : StageMap) (t s0 : String) :
    lookupSD (applyFieldLines m t s0) s0 =
      if (lookupSD m s0).isSome || (dropPre? t (s0 ++ ".sig:")).isSome ||
          (dropPre? t (s0 ++ ".hash:")).isSome ||
          ((dropPre? t (s0 ++ ".aad_len:")).bind
            (fun rest => parseU32 (rustTrim rest))).isSome ||
          (dropPre? t (s0 ++ ".aad:")).isSome then
        some
          { sig := ov ((dropPre? t (s0 ++ ".sig:")).map rustTrim)
              ((lookupSD m s0).getD StageData.empty).sig
            hash := ov ((dropPre? t (s0 ++ ".hash:")).map rustTrim)
              ((lookupSD m s0).getD StageData.empty).hash
            key_slot := ((lookupSD m s0).getD StageData.empty).key_slot
            key_tag := ((lookupSD m s0).getD StageData.empty).key_tag
            aad_len := ov ((dropPre? t (s0 ++ ".aad_len:")).bind
                (fun rest => parseU32 (rustTrim rest)))
              ((lookupSD m s0).getD StageData.empty).aad_len
            aad := ov ((dropPre? t (s0 ++ ".aad:")).map rustTrim)
              ((lookupSD m s0).getD StageData.empty).aad }
      else none := by
  rcases hA : dropPre? t (s0 ++ ".sig:") with _ | r1 <;>
  rcases hB : dropPre? t (s0 ++ ".hash:") with _ | r2 <;>
  rcases hC : (dropPre? t (s0 ++ ".aad_len:")).bind
    (fun rest => parseU32 (rustTrim rest)) with _ | r3 <;>
  rcases hD : dropPre? t (s0 ++ ".aad:") with _ | r4 <;>
  rcases hL : lookupSD m s0 with _ | d <;>
  simp [applyFieldLines, lookupSD_condUpdate, hA, hB, hC, hD, hL, ov,
    StageData.empty]

theorem parseLine_ok_lookup (m : StageMap) (raw : String) (m' : StageMap)
    (h : parseLine m raw = .ok m') (s : String) :
    lookupSD m' s =
      if (lookupSD m s).isSome || lineTouches s raw then
        some (applyLineStage s (rustTrim raw) ((lookupSD m s).getD StageData.empty))
      else none := by
  obtain ⟨o0, o1, o2, hp0, hp1, hp2, hm⟩ := parseLine_ok_decomp m raw m' h
  subst hm
  by_cases hs0 : s = "boot0"
  · subst hs0
    rw [lookupSD_condUpdate, if_neg (by decide), lookupSD_condUpdate,
      if_neg (by decide), lookupSD_condUpdate, if_pos rfl,
      lookupSD_applyFieldLines_ne _ _ _ _ (by decide),
      lookupSD_applyFieldLines_ne _ _ _ _ (by decide),
      lookupSD_applyFieldLines_self]
    rcases ho : o0 with _ | p <;>
    rcases hA : dropPre? (rustTrim raw) "boot0.sig:" with _ | r1 <;>
    rcases hB : dropPre? (rustTrim raw) "boot0.hash:" with _ | r2 <;>
    rcases hC : (dropPre? (rustTrim raw) "boot0.aad_len:").bind
      (fun rest => parseU32 (rustTrim rest)) with _ | r3 <;>
    rcases hD : dropPre? (rustTrim raw) "boot0.aad:" with _ | r4 <;>
    rcases hL : lookupSD m "boot0" with _ | d <;>
    simp [lineTouches, sigA, hashA, aadLenA, aadA, keyA, okSome, hp0, hA, hB,
      hC, hD, ho, hL, applyLineStage, ov, keyAssign, stageNames, StageData.empty]
  by_cases hs1 : s = "boot1"
  · subst hs1
    rw [lookupSD_condUpdate, if_neg (by decide), lookupSD_condUpdate,
      if_pos rfl, lookupSD_condUpdate, if_neg (by decide),
      lookupSD_applyFieldLines_ne _ _ _ _ (by decide),
      lookupSD_applyFieldLines_self,
      lookupSD_applyFieldLines_ne _ _ _ _ (by decide)]
    rcases ho : o1 with _ | p <;>
    rcases hA : dropPre? (rustTrim raw) "boot1.sig:" with _ | r1 <;>
    rcases hB : dropPre? (rustTrim raw) "boot1.hash:" with _ | r2 <;>
    rcases hC : (dropPre? (rustTrim raw) "boot1.aad_len:").bind
      (fun rest => parseU32 (rustTrim rest)) with _ | r3 <;>
    rcases hD : dropPre? (rustTrim raw) "boot1.aad:" with _ | r4 <;>
    rcases hL : lookupSD m "boot1" with _ | d <;>
    simp [lineTouches, sigA, hashA, aadLenA, aadA, keyA, okSome, hp1, hA, hB,
      hC, hD, ho, hL, applyLineStage, ov, keyAssign, stageNames, StageData.empty]
  by_cases hs2 : s = "loader"
  · subst hs2
    rw [lookupSD_condUpdate, if_pos rfl, lookupSD_condUpdate,
      if_neg (by decide), lookupSD_condUpdate, if_neg (by decide),
      lookupSD_applyFieldLines_self,
      lookupSD_applyFieldLines_ne _ _ _ _ (by decide),
      lookupSD_applyFieldLines_ne _ _ _ _ (by decide)]
    rcases ho : o2 with _ | p <;>
    rcases hA : dropPre? (rustTrim raw) "loader.sig:" with _ | r1 <;>
    rcases hB : dropPre? (rustTrim raw) "loader.hash:" with _ | r2 <;>
    rcases hC : (dropPre? (rustTrim raw) "loader.aad_len:").bind
      (fun rest => parseU32 (rustTrim rest)) with _ | r3 <;>
    rcases hD : dropPre? (rustTrim raw) "loader.aad:" with _ | r4 <;>
    rcases hL : lookupSD m "loader" with _ | d <;>
    simp [lineTouches, sigA, hashA, aadLenA, aadA, keyA, okSome, hp2, hA, hB,
      hC, hD, ho, hL, applyLineStage, ov, keyAssign, stageNames, StageData.empty]
  · rw [lookupSD_condUpdate, if_neg hs2, lookupSD_condUpdate, if_neg hs1,
      lookupSD_condUpdate, if_neg hs0,
      lookupSD_applyFieldLines_ne _ _ _ _ hs2,
      lookupSD_applyFieldLines_ne _ _ _ _ hs1,
      lookupSD_applyFieldLines_ne _ _ _ _ hs0]
    have hmem : ¬ s ∈ stageNames := by
      simp [stageNames]
      exact ⟨hs0, hs1, hs2⟩
    rcases hL : lookupSD m s with _ | d <;>
    simp [lineTouches, sigA, hashA, aadLenA, aadA, keyA, okSome, hmem, hs0,
      hs1, hs2, hL, applyLineStage, ov, StageData.empty]

theorem lineTouches_false (s raw : String) (h : lineTouches s raw = false) :
    sigA s (rustTrim raw) = none ∧ hashA s (rustTrim raw) = none ∧
    aadLenA s (rustTrim raw) = none ∧ aadA s (rustTrim raw) = none ∧
    keyA s (rustTrim raw) = none := by
  simp only [lineTouches, Bool.or_eq_false_iff] at h
  obtain ⟨⟨⟨⟨e1, e2⟩, e3⟩, e4⟩, e5⟩ := h
  refine ⟨?_, ?_, ?_, ?_, ?_⟩ <;>
    rwa [← Option.not_isSome_iff_eq_none, Bool.not_eq_true]

theorem applyLineStage_id (s t : String) (d : StageData)
    (h1 : sigA s t = none) (h2 : hashA s t = none) (h3 : aadLenA s t = none)
    (h4 : aadA s t = none) (h5 : keyA s t = none) :
    applyLineStage s t d = d := by
  simp [applyLineStage, h1, h2, h3, h4, h5, ov]

theorem processLines_ok_lookup (L : List String) (m mf : StageMap)
    (h : processLines m L = .ok mf) (s : String) :
    lookupSD mf s =
      if (lookupSD m s).isSome || L.any (fun raw => lineTouches s raw) then
        some (applyLines s L ((lookupSD m s).getD StageData.empty))
      else none := by
  induction L generalizing m with
  | nil =>
    simp only [processLines, Except.ok.injEq] at h
    subst h
    cases hL : lookupSD m s <;> simp [applyLines, hL]
  | cons l L ih =>
    simp only [processLines] at h
    cases hpl : parseLine m l with
    | error e => rw [hpl] at h; exact absurd h (by simp)
    | ok m1 =>
      rw [hpl] at h
      dsimp only at h
      have step := parseLine_ok_lookup m l m1 hpl s
      have rest := ih m1 h
      rw [rest, step]
      by_cases hS : (lookupSD m s).isSome
      · simp [hS, applyLines]
      · by_cases hT : lineTouches s l
        · simp [hS, hT, applyLines]
        · have hT' : lineTouches s l = false := by
            rwa [Bool.not_eq_true] at hT
          have hnone : lookupSD m s = none := by
            rwa [← Option.not_isSome_iff_eq_none]
          obtain ⟨e1, e2, e3, e4, e5⟩ := lineTouches_false s l hT'
          by_cases hAny : L.any (fun raw => lineTouches s raw)
          · simp [hS, hT', hAny, hnone, applyLines,
              applyLineStage_id s (rustTrim l) _ e1 e2 e3 e4 e5]
          · simp [hS, hT', hAny, hnone, applyLines]

theorem parseLine_ok_of_lineOk (m : StageMap) (raw : String)
    (h : lineOk raw = true) : ∃ m', parseLine m raw = .ok m' := by
  simp only [lineOk, Bool.not_eq_true', Bool.or_eq_false_iff] at h
  obtain ⟨⟨h0, h1⟩, h2⟩ := h
  rcases k0 : parse_key_line (rustTrim raw) "Boot0:" with e | o0
  · rw [k0] at h0; simp [isErr] at h0
  rcases k1 : parse_key_line (rustTrim raw) "Boot1:" with e | o1
  · rw [k1] at h1; simp [isErr] at h1
  rcases k2 : parse_key_line (rustTrim raw) "Next stage:" with e | o2
  · rw [k2] at h2; simp [isErr] at h2
  refine ⟨condUpdate (condUpdate (condUpdate
      (stageNames.foldl (fun acc s => applyFieldLines acc (rustTrim raw) s) m)
      o0 "boot0" keyAssign) o1 "boot1" keyAssign) o2 "loader" keyAssign, ?_⟩
  simp [parseLine, keyLineStep, k0, k1, k2]

theorem parseLine_error_of_not_lineOk (m : StageMap) (raw : String)
    (h : lineOk raw = false) : parseLine m raw = .error () := by
  simp only [lineOk, Bool.not_eq_false] at h
  rcases k0 : parse_key_line (rustTrim raw) "Boot0:" with e | o0
  · cases e; simp [parseLine, keyLineStep, k0]
  rcases k1 : parse_key_line (rustTrim raw) "Boot1:" with e | o1
  · cases e; simp [parseLine, keyLineStep, k0, k1]
  rcases k2 : parse_key_line (rustTrim raw) "Next stage:" with e | o2
  · cases e; simp [parseLine, keyLineStep, k0, k1, k2]
  · rw [k0, k1, k2] at h
    simp [isErr] at h

theorem processLines_error_iff (L : List String) (m : StageMap) :
    processLines m L = .error () ↔ L.all lineOk = false := by
  induction L generalizing m with
  | nil => simp [processLines]
  | cons l L ih =>
    by_cases hl : lineOk l
    · obtain ⟨m', hm'⟩ := parseLine_ok_of_lineOk m l hl
      simp [processLines, hm', ih m', hl]
    · have hl' : lineOk l = false := by rwa [Bool.not_eq_true] at hl
      simp [processLines, parseLine_error_of_not_lineOk m l hl', hl']

theorem ov_idem (a x : Option α) : ov a (ov a x) = ov a x := by
  cases a <;> simp [ov]

theorem lastOf_append (f : String → Option α) (A B : List String) :
    lastOf f (A ++ B) = ovv (lastOf f B) (lastOf f A) := by
  induction A with
  | nil => cases h : lastOf f B <;> simp [lastOf, ovv, h]
  | cons a A ih =>
    have lhs : lastOf f ((a :: A) ++ B) =
        match lastOf f (A ++ B) with
        | some v => some v
        | none => f a := rfl
    have rhs : lastOf f (a :: A) =
        match lastOf f A with
        | some v => some v
        | none => f a := rfl
    rw [lhs, ih, rhs]
    cases lastOf f B <;> cases lastOf f A <;> simp [ovv]

theorem applyLines_sig (s : String) (L : List String) (d : StageData) :
    (applyLines s L d).sig =
      ov (lastOf (fun raw => sigA s (rustTrim raw)) L) d.sig := by
  induction L generalizing d with
  | nil => simp [applyLines, lastOf, ov]
  | cons l L ih =>
    show (applyLines s L (applyLineStage s (rustTrim l) d)).sig = _
    rw [ih]
    cases h1 : lastOf (fun raw => sigA s (rustTrim raw)) L <;>
    cases h2 : sigA s (rustTrim l) <;>
    simp [lastOf, ov, h1, h2, applyLineStage]

theorem applyLines_hash (s : String) (L : List String) (d : StageData) :
    (applyLines s L d).hash =
      ov (lastOf (fun raw => hashA s (rustTrim raw)) L) d.hash := by
  induction L generalizing d with
  | nil => simp [applyLines, lastOf, ov]
  | cons l L ih =>
    show (applyLines s L (applyLineStage s (rustTrim l) d)).hash = _
    rw [ih]
    cases h1 : lastOf (fun raw => hashA s (rustTrim raw)) L <;>
    cases h2 : hashA s (rustTrim l) <;>
    simp [lastOf, ov, h1, h2, applyLineStage]

theorem applyLines_aad_len (s : String) (L : List String) (d : StageData) :
    (applyLines s L d).aad_len =
      ov (lastOf (fun raw => aadLenA s (rustTrim raw)) L) d.aad_len := by
  induction L generalizing d with
  | nil => simp [applyLines, lastOf, ov]
  | cons l L ih =>
    show (applyLines s L (applyLineStage s (rustTrim l) d)).aad_len = _
    rw [ih]
    cases h1 : lastOf (fun raw => aadLenA s (rustTrim raw)) L <;>
    cases h2 : aadLenA s (rustTrim l) <;>
    simp [lastOf, ov, h1, h2, applyLineStage]

theorem applyLines_aad (s : String) (L : List String) (d : StageData) :
    (applyLines s L d).aad =
      ov (lastOf (fun raw => aadA s (rustTrim raw)) L) d.aad := by
  induction L generalizing d with
  | nil => simp [applyLines, lastOf, ov]
  | cons l L ih =>
    show (applyLines s L (applyLineStage s (rustTrim l) d)).aad = _
    rw [ih]
    cases h1 : lastOf (fun raw => aadA s (rustTrim raw)) L <;>
    cases h2 : aadA s (rustTrim l) <;>
    simp [lastOf, ov, h1, h2, applyLineStage]

theorem applyLines_key_slot (s : String) (L : List String) (d : StageData) :
    (applyLines s L d).key_slot =
      ov ((lastOf (fun raw => keyA s (rustTrim raw)) L).map (·.1)) d.key_slot := by
  induction L generalizing d with
  | nil => simp [applyLines, lastOf, ov]
  | cons l L ih =>
    show (applyLines s L (applyLineStage s (rustTrim l) d)).key_slot = _
    rw [ih]
    cases h1 : lastOf (fun raw => keyA s (rustTrim raw)) L <;>
    cases h2 : keyA s (rustTrim l) <;>
    simp [lastOf, ov, h1, h2, applyLineStage]

theorem applyLines_key_tag (s : String) (L : List String) (d : StageData) :
    (applyLines s L d).key_tag =
      ov ((lastOf (fun raw => keyA s (rustTrim raw)) L).map (·.2)) d.key_tag := by
  induction L generalizing d with
  | nil => simp [applyLines, lastOf, ov]
  | cons l L ih =>
    show (applyLines s L (applyLineStage s (rustTrim l) d)).key_tag = _
    rw [ih]
    cases h1 : lastOf (fun raw => keyA s (rustTrim raw)) L <;>
    cases h2 : keyA s (rustTrim l) <;>
    simp [lastOf, ov, h1, h2, applyLineStage]

theorem StageData.extEq (d e : StageData) (h1 : d.sig = e.sig)
    (h2 : d.hash = e.hash) (h3 : d.key_slot = e.key_slot)
    (h4 : d.key_tag = e.key_tag) (h5 : d.aad_len = e.aad_len)
    (h6 : d.aad = e.aad) : d = e := by
  cases d; cases e; simp_all

theorem applyLines_idem (s : String) (L : List String) (d : StageData) :
    applyLines s L (applyLines s L d) = applyLines s L d := by
  apply StageData.extEq
  · rw [applyLines_sig, applyLines_sig, ov_idem]
  · rw [applyLines_hash, applyLines_hash, ov_idem]
  · rw [applyLines_key_slot, applyLines_key_slot, ov_idem]
  · rw [applyLines_key_tag, applyLines_key_tag, ov_idem]
  · rw [applyLines_aad_len, applyLines_aad_len, ov_idem]
  · rw [applyLines_aad, applyLines_aad, ov_idem]

theorem splitNl_ne_nil (l : List Char) : splitNl l ≠ [] := by
  induction l with
  | nil => simp [splitNl]
  | cons c rest ih =>
    simp only [splitNl]
    split
    · simp
    · cases h : splitNl rest with
      | nil => simp
      | cons a b => simp

theorem splitNl_append (a b : List Char) :
    splitNl (a ++ '\n' :: b) = splitNl a ++ splitNl b := by
  induction a with
  | nil => simp [splitNl]
  | cons c rest ih =>
    by_cases hc : c = '\n'
    · subst hc; simp [splitNl, ih]
    · simp only [List.cons_append, splitNl, if_neg hc, List.append_eq]
      rw [ih]
      cases h : splitNl rest with
      | nil => exact absurd h (splitNl_ne_nil rest)
      | cons x t => simp

theorem dropFinEmpty_append (A B : List (List Char)) (hB : B ≠ []) :
    dropFinEmpty (A ++ B) = A ++ dropFinEmpty B := by
  rcases List.eq_nil_or_concat B with h | ⟨Q, bl, h⟩
  · exact absurd h hB
  · rw [List.concat_eq_append] at h
    subst h
    unfold dropFinEmpty
    rw [← List.append_assoc, List.getLast?_concat, List.getLast?_concat,
      List.dropLast_concat, List.dropLast_concat]
    by_cases hbl : bl = []
    · subst hbl; simp
    · rw [if_neg (by simp [hbl]), if_neg (by simp [hbl]), List.append_assoc]

theorem rustLines_double (t : String) :
    rustLines (t ++ "\n" ++ t) =
      (splitNl t.data).map (fun l => (⟨stripCR l⟩ : String)) ++ rustLines t := by
  unfold rustLines
  have hd : (t ++ "\n" ++ t).data = t.data ++ '\n' :: t.data := by
    rw [String.data_append, String.data_append, List.append_assoc]; rfl
  rw [hd, splitNl_append, dropFinEmpty_append _ _ (splitNl_ne_nil t.data),
    List.map_append]

theorem splitNl_map_cases (t : String) :
    (splitNl t.data).map (fun l => (⟨stripCR l⟩ : String)) = rustLines t ∨
    (splitNl t.data).map (fun l => (⟨stripCR l⟩ : String)) = rustLines t ++ [""] := by
  unfold rustLines dropFinEmpty
  rcases List.eq_nil_or_concat (splitNl t.data) with h | ⟨Q, bl, h⟩
  · exact absurd h (splitNl_ne_nil t.data)
  · rw [List.concat_eq_append] at h
    rw [h, List.getLast?_concat, List.dropLast_concat]
    by_cases hbl : bl = []
    · subst hbl
      right
      simp
      rfl
    · left
      rw [if_neg (by simp [hbl])]

theorem isPrefixOf_nil (p : List Char) (hp : p ≠ []) :
    p.isPrefixOf ([] : List Char) = false := by
  cases p with
  | nil => exact absurd rfl hp
  | cons c t => rfl

theorem dropPre?_nil (s q : String) (hq : q.data ≠ []) :
    dropPre? "" (s ++ q) = none := by
  have h1 : (s ++ q).data ≠ [] := by
    rw [String.data_append]
    intro h
    exact hq (List.append_eq_nil.mp h).2
  have h2 : startsWithS "" (s ++ q) = false := by
    unfold startsWithS
    have h3 : ("" : String).data = [] := rfl
    rw [h3]
    exact isPrefixOf_nil _ h1
  simp [dropPre?, h2]

theorem lineTouches_empty (s : String) : lineTouches s "" = false := by
  have ht : rustTrim "" = "" := rfl
  have h1 : dropPre? "" (s ++ ".sig:") = none := dropPre?_nil s ".sig:" (by decide)
  have h2 : dropPre? "" (s ++ ".hash:") = none := dropPre?_nil s ".hash:" (by decide)
  have h3 : dropPre? "" (s ++ ".aad_len:") = none :=
    dropPre?_nil s ".aad_len:" (by decide)
  have h4 : dropPre? "" (s ++ ".aad:") = none := dropPre?_nil s ".aad:" (by decide)
  have k0 : parse_key_line "" "Boot0:" = .ok none := rfl
  have k1 : parse_key_line "" "Boot1:" = .ok none := rfl
  have k2 : parse_key_line "" "Next stage:" = .ok none := rfl
  simp [lineTouches, ht, sigA, hashA, aadLenA, aadA, keyA, okSome,
    h1, h2, h3, h4, k0, k1, k2]

theorem applyLines_concat_empty (s : String) (L : List String) (d : StageData) :
    applyLines s (L ++ [""]) d = applyLines s L d := by
  obtain ⟨e1, e2, e3, e4, e5⟩ := lineTouches_false s "" (lineTouches_empty s)
  unfold applyLines
  rw [List.foldl_append]
  exact applyLineStage_id s (rustTrim "") _ e1 e2 e3 e4 e5

theorem lineOk_empty : lineOk "" = true := rfl

/-! ## Claim theorems -/

/-- C4: the claim says `parse_audit_output` (with `parse_key_line` on every
line) never fails or panics on any input.  The code violates this: on a
key-annotation line whose first `)` precedes its first `(`, such as
`"Boot0: key 2) (x)"`, the Rust slice `line[paren_start + 1..paren_end]`
has start 15 and end 12 and panics.  This theorem evaluates the model at
that failing input: the panic (modelled as `Except.error ()`) occurs and
propagates out of the parser. -/
theorem parse_key_line_panics_on_reversed_parens :
    parse_key_line "Boot0: key 2) (x)" "Boot0:" = .error () ∧
    parse_audit_output "Boot0: key 2) (x)" = .error () := by
  exact ⟨rfl, rfl⟩

/-- C5 counterexample: the line `"Boot0: (beta) key 2"` begins with
`"Boot0:"`, contains `"key "` followed immediately by a run of decimal
digits (at index 14, with `"2"` after it), and contains a parenthesized
substring (`(beta)`, parens at indices 7 and 12) — so the claim says slot 2
and tag `"beta"` are recorded for boot0.  But the code requires a
non-digit character after the digit run (`find` returns `None` when the
digits run to the end of the line), so the parser records nothing. -/
theorem key_line_extraction_counterexample :
    startsWithS "Boot0: (beta) key 2" "Boot0:" = true ∧
    strFind "Boot0: (beta) key 2" "key " = some 14 ∧
    strDrop "Boot0: (beta) key 2" 18 = "2" ∧
    strFindChar "Boot0: (beta) key 2" '(' = some 7 ∧
    strFindChar "Boot0: (beta) key 2" ')' = some 12 ∧
    parse_audit_output "Boot0: (beta) key 2" = .ok [] := by
  exact ⟨rfl, rfl, rfl, rfl, rfl, rfl⟩

/-- C6 counterexample: the claim says the returned mapping contains an
entry for a stage iff at least one field line (sig, hash, aad_len, aad)
for that stage was observed.  But a key-annotation line alone creates an
entry via `stages.entry(..).or_default()`: parsing the single line
`"Boot0: key 2/true (beta)"` (no field line anywhere) yields a map that
does contain `"boot0"`, with every field except slot/tag unset. -/
theorem parse_entry_without_field_line :
    parse_audit_output "Boot0: key 2/true (beta)" =
      .ok [("boot0", { key_slot := some 2, key_tag := some "beta" })] := by
  exact rfl

/-- C6 (amended): for every input whose parse completes, the mapping
contains an entry for stage `s` iff at least one line contributed data to
`s` — a field line (`sig`, `hash`, a numeric `aad_len`, `aad`) **or** a
key-annotation line recording slot/tag.  (The original claim demanded a
field line; the counterexample shows a key-annotation line alone also
creates the entry.) -/
theorem parse_entry_iff_line_touches (input : String) (m : StageMap)
    (s : String) (h : parse_audit_output input = .ok m) :
    lookupSD m s ≠ none ↔ ∃ l ∈ rustLines input, lineTouches s l = true := by
  have c := processLines_ok_lookup _ _ _ h s
  have h0 : lookupSD ([] : StageMap) s = none := rfl
  rw [h0] at c
  simp only [Option.isSome_none, Bool.false_or] at c
  rw [c]
  by_cases hAny : (rustLines input).any (fun raw => lineTouches s raw) = true
  · simp only [hAny, if_true]
    simp only [List.any_eq_true] at hAny
    simpa using hAny
  · rw [Bool.not_eq_true] at hAny
    simp only [hAny, Bool.false_eq_true, if_false]
    rw [List.any_eq_false] at hAny
    simp only [ne_eq, not_true_eq_false, false_iff, not_exists]
    intro l hl
    exact absurd hl.2 (by simp [hAny l hl.1])

/-- C6 witness: on input `"boot0.sig:aa"` the boot0 entry is present, by
the amended theorem applied to that input and its touching line. -/
theorem parse_entry_iff_line_touches_witness :
    lookupSD [("boot0", { sig := some "aa" })] "boot0" ≠ none :=
  (parse_entry_iff_line_touches "boot0.sig:aa"
      [("boot0", { sig := some "aa" })] "boot0" rfl).mpr (by decide)

/-- C7: parsing is last-write-wins per field per stage, so the parser is
idempotent under duplication: parsing `text` and parsing
`text ++ "\n" ++ text` either both panic, or both succeed with identical
record contents for every stage. -/
theorem parse_doubling_idempotent (text : String) :
    (parse_audit_output (text ++ "\n" ++ text) = .error () ↔
      parse_audit_output text = .error ()) ∧
    (∀ m m₂ s, parse_audit_output text = .ok m →
      parse_audit_output (text ++ "\n" ++ text) = .ok m₂ →
      lookupSD m₂ s = lookupSD m s) := by
  have hR := rustLines_double text
  constructor
  · unfold parse_audit_output
    rw [hR, processLines_error_iff, processLines_error_iff, List.all_append]
    rcases splitNl_map_cases text with hX | hX <;> rw [hX]
    · simp
    · rw [List.all_append]
      simp [lineOk_empty]
  · intro m m₂ s h1 h2
    unfold parse_audit_output at h1 h2
    rw [hR] at h2
    have c1 := processLines_ok_lookup _ _ _ h1 s
    have c2 := processLines_ok_lookup _ _ _ h2 s
    have h0 : lookupSD ([] : StageMap) s = none := rfl
    rw [h0] at c1 c2
    simp only [Option.isSome_none, Bool.false_or, Option.getD_none] at c1 c2
    rw [c1, c2, List.any_append]
    rcases splitNl_map_cases text with hX | hX <;> rw [hX]
    · by_cases hAny : (rustLines text).any (fun raw => lineTouches s raw) = true
      · simp only [hAny, Bool.or_self, if_true]
        have : applyLines s (rustLines text ++ rustLines text) StageData.empty =
            applyLines s (rustLines text) StageData.empty := by
          unfold applyLines
          rw [List.foldl_append]
          exact applyLines_idem s (rustLines text) StageData.empty
        rw [this]
      · rw [Bool.not_eq_true] at hAny
        simp [hAny]
    · rw [List.any_append]
      have hTE : lineTouches s "" = false := lineTouches_empty s
      by_cases hAny : (rustLines text).any (fun raw => lineTouches s raw) = true
      · simp only [hAny, List.any_cons, List.any_nil, hTE, Bool.or_self,
          Bool.or_false, Bool.false_or, if_true]
        have e1 : applyLines s ((rustLines text ++ [""]) ++ rustLines text)
              StageData.empty =
            applyLines s (rustLines text) StageData.empty := by
          unfold applyLines
          rw [List.foldl_append]
          have e2 : List.foldl (fun d raw => applyLineStage s (rustTrim raw) d)
              StageData.empty (rustLines text ++ [""]) =
              applyLines s (rustLines text) StageData.empty := by
            exact applyLines_concat_empty s (rustLines text) StageData.empty
          rw [e2]
          exact applyLines_idem s (rustLines text) StageData.empty
        rw [e1]
      · rw [Bool.not_eq_true] at hAny
        simp [hAny, hTE]

/-- C7 witness: duplicating the single-line input `"boot0.sig:aa"` yields
the same boot0 record, by the theorem applied at that input. -/
theorem parse_doubling_idempotent_witness :
    parse_audit_output "boot0.sig:aa" = .ok [("boot0", { sig := some "aa" })] ∧
    parse_audit_output ("boot0.sig:aa" ++ "\n" ++ "boot0.sig:aa") =
      .ok [("boot0", { sig := some "aa" })] ∧
    lookupSD [("boot0", { sig := some "aa" })] "boot0" =
      lookupSD [("boot0", { sig := some "aa" })] "boot0" :=
  ⟨rfl, rfl,
    (parse_doubling_idempotent "boot0.sig:aa").2
      [("boot0", { sig := some "aa" })] [("boot0", { sig := some "aa" })]
      "boot0" rfl rfl⟩

theorem dropPre?_none_of_false (t p : String)
    (h : startsWithS t p = false) : dropPre? t p = none := by
  simp [dropPre?, h]

theorem dropPre?_none_head (t p : String) (c c' : Char) (r r' : List Char)
    (hp : p.data = c :: r) (ht : t.data = c' :: r') (h : (c == c') = false) :
    dropPre? t p = none := by
  simp [dropPre?, startsWithS, hp, ht, List.isPrefixOf, h]

theorem parse_key_line_none_of_not_starts (t pre : String)
    (h : startsWithS t pre = false) : parse_key_line t pre = .ok none := by
  simp [parse_key_line, h]

theorem parse_key_line_some_starts (t pre : String) (o : Nat × String)
    (h : parse_key_line t pre = .ok (some o)) : startsWithS t pre = true := by
  by_cases hs : startsWithS t pre = true
  · exact hs
  · rw [Bool.not_eq_true] at hs
    simp [parse_key_line, hs] at h

theorem startsWithS_shape (t p : String) (h : startsWithS t p = true) :
    ∃ rest, t.data = p.data ++ rest := by
  unfold startsWithS at h
  obtain ⟨rest, hr⟩ := (List.isPrefixOf_iff_prefix.mp h)
  exact ⟨rest, hr.symm⟩

theorem applyFieldLines_id (m : StageMap) (t s : String)
    (h1 : dropPre? t (s ++ ".sig:") = none)
    (h2 : dropPre? t (s ++ ".hash:") = none)
    (h3 : dropPre? t (s ++ ".aad_len:") = none)
    (h4 : dropPre? t (s ++ ".aad:") = none) :
    applyFieldLines m t s = m := by
  simp [applyFieldLines, condUpdate, h1, h2, h3, h4]

theorem startsWithS_false_head (t p : String) (c c' : Char) (r r' : List Char)
    (hp : p.data = c :: r) (ht : t.data = c' :: r') (h : (c == c') = false) :
    startsWithS t p = false := by
  simp [startsWithS, hp, ht, List.isPrefixOf, h]

theorem keyline_context_boot0 (t : String) (h : startsWithS t "Boot0:" = true) :
    (∀ s, s ∈ stageNames →
      dropPre? t (s ++ ".sig:") = none ∧ dropPre? t (s ++ ".hash:") = none ∧
      dropPre? t (s ++ ".aad_len:") = none ∧ dropPre? t (s ++ ".aad:") = none) ∧
    startsWithS t "Boot1:" = false ∧ startsWithS t "Next stage:" = false := by
  obtain ⟨rest, hr⟩ := startsWithS_shape t "Boot0:" h
  have ht : t.data = 'B' :: (['o', 'o', 't', '0', ':'] ++ rest) := by rw [hr]; rfl
  refine ⟨?_, ?_, ?_⟩
  · intro s hs
    simp only [stageNames, List.mem_cons, List.not_mem_nil, or_false] at hs
    rcases hs with rfl | rfl | rfl
    · exact ⟨dropPre?_none_head t _ 'b' 'B' _ _ rfl ht (by decide),
        dropPre?_none_head t _ 'b' 'B' _ _ rfl ht (by decide),
        dropPre?_none_head t _ 'b' 'B' _ _ rfl ht (by decide),
        dropPre?_none_head t _ 'b' 'B' _ _ rfl ht (by decide)⟩
    · exact ⟨dropPre?_none_head t _ 'b' 'B' _ _ rfl ht (by decide),
        dropPre?_none_head t _ 'b' 'B' _ _ rfl ht (by decide),
        dropPre?_none_head t _ 'b' 'B' _ _ rfl ht (by decide),
        dropPre?_none_head t _ 'b' 'B' _ _ rfl ht (by decide)⟩
    · exact ⟨dropPre?_none_head t _ 'l' 'B' _ _ rfl ht (by decide),
        dropPre?_none_head t _ 'l' 'B' _ _ rfl ht (by decide),
        dropPre?_none_head t _ 'l' 'B' _ _ rfl ht (by decide),
        dropPre?_none_head t _ 'l' 'B' _ _ rfl ht (by decide)⟩
  · unfold startsWithS
    rw [hr, show ("Boot0:" : String).data = ['B', 'o', 'o', 't', '0', ':'] from rfl,
      show ("Boot1:" : String).data = ['B', 'o', 'o', 't', '1', ':'] from rfl]
    simp [List.isPrefixOf]
  · exact startsWithS_false_head t _ 'N' 'B' _ _ rfl ht (by decide)

theorem keyline_context_boot1 (t : String) (h : startsWithS t "Boot1:" = true) :
    (∀ s, s ∈ stageNames →
      dropPre? t (s ++ ".sig:") = none ∧ dropPre? t (s ++ ".hash:") = none ∧
      dropPre? t (s ++ ".aad_len:") = none ∧ dropPre? t (s ++ ".aad:") = none) ∧
    startsWithS t "Boot0:" = false ∧ startsWithS t "Next stage:" = false := by
  obtain ⟨rest, hr⟩ := startsWithS_shape t "Boot1:" h
  have ht : t.data = 'B' :: (['o', 'o', 't', '1', ':'] ++ rest) := by rw [hr]; rfl
  refine ⟨?_, ?_, ?_⟩
  · intro s hs
    simp only [stageNames, List.mem_cons, List.not_mem_nil, or_false] at hs
    rcases hs with rfl | rfl | rfl
    · exact ⟨dropPre?_none_head t _ 'b' 'B' _ _ rfl ht (by decide),
        dropPre?_none_head t _ 'b' 'B' _ _ rfl ht (by decide),
        dropPre?_none_head t _ 'b' 'B' _ _ rfl ht (by decide),
        dropPre?_none_head t _ 'b' 'B' _ _ rfl ht (by decide)⟩
    · exact ⟨dropPre?_none_head t _ 'b' 'B' _ _ rfl ht (by decide),
        dropPre?_none_head t _ 'b' 'B' _ _ rfl ht (by decide),
        dropPre?_none_head t _ 'b' 'B' _ _ rfl ht (by decide),
        dropPre?_none_head t _ 'b' 'B' _ _ rfl ht (by decide)⟩
    · exact ⟨dropPre?_none_head t _ 'l' 'B' _ _ rfl ht (by decide),
        dropPre?_none_head t _ 'l' 'B' _ _ rfl ht (by decide),
        dropPre?_none_head t _ 'l' 'B' _ _ rfl ht (by decide),
        dropPre?_none_head t _ 'l' 'B' _ _ rfl ht (by decide)⟩
  · unfold startsWithS
    rw [hr, show ("Boot1:" : String).data = ['B', 'o', 'o', 't', '1', ':'] from rfl,
      show ("Boot0:" : String).data = ['B', 'o', 'o', 't', '0', ':'] from rfl]
    simp [List.isPrefixOf]
  · exact startsWithS_false_head t _ 'N' 'B' _ _ rfl ht (by decide)

theorem keyline_context_loader (t : String)
    (h : startsWithS t "Next stage:" = true) :
    (∀ s, s ∈ stageNames →
      dropPre? t (s ++ ".sig:") = none ∧ dropPre? t (s ++ ".hash:") = none ∧
      dropPre? t (s ++ ".aad_len:") = none ∧ dropPre? t (s ++ ".aad:") = none) ∧
    startsWithS t "Boot0:" = false ∧ startsWithS t "Boot1:" = false := by
  obtain ⟨rest, hr⟩ := startsWithS_shape t "Next stage:" h
  have ht : t.data =
      'N' :: (['e', 'x', 't', ' ', 's', 't', 'a', 'g', 'e', ':'] ++ rest) := by
    rw [hr]; rfl
  refine ⟨?_, ?_, ?_⟩
  · intro s hs
    simp only [stageNames, List.mem_cons, List.not_mem_nil, or_false] at hs
    rcases hs with rfl | rfl | rfl
    · exact ⟨dropPre?_none_head t _ 'b' 'N' _ _ rfl ht (by decide),
        dropPre?_none_head t _ 'b' 'N' _ _ rfl ht (by decide),
        dropPre?_none_head t _ 'b' 'N' _ _ rfl ht (by decide),
        dropPre?_none_head t _ 'b' 'N' _ _ rfl ht (by decide)⟩
    · exact ⟨dropPre?_none_head t _ 'b' 'N' _ _ rfl ht (by decide),
        dropPre?_none_head t _ 'b' 'N' _ _ rfl ht (by decide),
        dropPre?_none_head t _ 'b' 'N' _ _ rfl ht (by decide),
        dropPre?_none_head t _ 'b' 'N' _ _ rfl ht (by decide)⟩
    · exact ⟨dropPre?_none_head t _ 'l' 'N' _ _ rfl ht (by decide),
        dropPre?_none_head t _ 'l' 'N' _ _ rfl ht (by decide),
        dropPre?_none_head t _ 'l' 'N' _ _ rfl ht (by decide),
        dropPre?_none_head t _ 'l' 'N' _ _ rfl ht (by decide)⟩
  · exact startsWithS_false_head t _ 'B' 'N' _ _ rfl ht (by decide)
  · exact startsWithS_false_head t _ 'B' 'N' _ _ rfl ht (by decide)

/-- C5 (amended): a key-annotation line records slot and tag exactly when
the code's extraction steps all succeed: the line (after trimming) begins
with one of the three prefixes, the **first** occurrence of `"key "` is
followed by a digit run that is terminated by a non-digit character and
whose value fits in `u32`, and the line contains `(` and `)` with the first
`(` before the first `)`.  The recorded tag is the text strictly between
the first `(` and the first `)` (verbatim, whitespace preserved), and the
recording overwrites any previous slot/tag of that stage while leaving the
rest of the map alone; a line on which an extraction step fails (without
panicking) contributes nothing.  (The original claim required only "key
<digits> somewhere and a parenthesized substring", which the
counterexample refutes.) -/
theorem key_line_extraction_amended :
    (∀ (line pre : String) (i sEnd slot ps pe : Nat),
      startsWithS line pre = true →
      strFind line "key " = some i →
      List.findIdx? (fun c => !c.isDigit) (strDrop line (i + 4)).data = some sEnd →
      parseU32 (strTake (strDrop line (i + 4)) sEnd) = some slot →
      strFindChar line '(' = some ps →
      strFindChar line ')' = some pe →
      ps + 1 ≤ pe →
      parse_key_line line pre = .ok (some (slot, strSlice line (ps + 1) pe))) ∧
    (∀ (m : StageMap) (raw : String) (slot : Nat) (tag : String)
        (pre stage : String),
      ((pre = "Boot0:" ∧ stage = "boot0") ∨ (pre = "Boot1:" ∧ stage = "boot1") ∨
        (pre = "Next stage:" ∧ stage = "loader")) →
      parse_key_line (rustTrim raw) pre = .ok (some (slot, tag)) →
      parseLine m raw = .ok (updateStage m stage (keyAssign (slot, tag)))) ∧
    (∀ (m : StageMap) (raw pre : String),
      (pre = "Boot0:" ∨ pre = "Boot1:" ∨ pre = "Next stage:") →
      startsWithS (rustTrim raw) pre = true →
      parse_key_line (rustTrim raw) pre = .ok none →
      parseLine m raw = .ok m) := by
  refine ⟨?_, ?_, ?_⟩
  · intro line pre i sEnd slot ps pe h1 h2 h3 h4 h5 h6 h7
    simp [parse_key_line, h1, h2, h3, h4, h5, h6, h7]
  · intro m raw slot tag pre stage hps hp
    have hs := parse_key_line_some_starts _ _ _ hp
    rcases hps with ⟨rfl, rfl⟩ | ⟨rfl, rfl⟩ | ⟨rfl, rfl⟩
    · obtain ⟨hf, hb1, hb2⟩ := keyline_context_boot0 _ hs
      obtain ⟨a1, a2, a3, a4⟩ := hf "boot0" (by simp [stageNames])
      obtain ⟨b1, b2, b3, b4⟩ := hf "boot1" (by simp [stageNames])
      obtain ⟨c1, c2, c3, c4⟩ := hf "loader" (by simp [stageNames])
      simp [parseLine, stageNames, applyFieldLines_id _ _ _ a1 a2 a3 a4,
        applyFieldLines_id _ _ _ b1 b2 b3 b4,
        applyFieldLines_id _ _ _ c1 c2 c3 c4, keyLineStep, hp,
        parse_key_line_none_of_not_starts _ _ hb1,
        parse_key_line_none_of_not_starts _ _ hb2, condUpdate]
    · obtain ⟨hf, hb1, hb2⟩ := keyline_context_boot1 _ hs
      obtain ⟨a1, a2, a3, a4⟩ := hf "boot0" (by simp [stageNames])
      obtain ⟨b1, b2, b3, b4⟩ := hf "boot1" (by simp [stageNames])
      obtain ⟨c1, c2, c3, c4⟩ := hf "loader" (by simp [stageNames])
      simp [parseLine, stageNames, applyFieldLines_id _ _ _ a1 a2 a3 a4,
        applyFieldLines_id _ _ _ b1 b2 b3 b4,
        applyFieldLines_id _ _ _ c1 c2 c3 c4, keyLineStep, hp,
        parse_key_line_none_of_not_starts _ _ hb1,
        parse_key_line_none_of_not_starts _ _ hb2, condUpdate]
    · obtain ⟨hf, hb1, hb2⟩ := keyline_context_loader _ hs
      obtain ⟨a1, a2, a3, a4⟩ := hf "boot0" (by simp [stageNames])
      obtain ⟨b1, b2, b3, b4⟩ := hf "boot1" (by simp [stageNames])
      obtain ⟨c1, c2, c3, c4⟩ := hf "loader" (by simp [stageNames])
      simp [parseLine, stageNames, applyFieldLines_id _ _ _ a1 a2 a3 a4,
        applyFieldLines_id _ _ _ b1 b2 b3 b4,
        applyFieldLines_id _ _ _ c1 c2 c3 c4, keyLineStep, hp,
        parse_key_line_none_of_not_starts _ _ hb1,
        parse_key_line_none_of_not_starts _ _ hb2, condUpdate]
  · intro m raw pre hps hs hp
    rcases hps with rfl | rfl | rfl
    · obtain ⟨hf, hb1, hb2⟩ := keyline_context_boot0 _ hs
      obtain ⟨a1, a2, a3, a4⟩ := hf "boot0" (by simp [stageNames])
      obtain ⟨b1, b2, b3, b4⟩ := hf "boot1" (by simp [stageNames])
      obtain ⟨c1, c2, c3, c4⟩ := hf "loader" (by simp [stageNames])
      simp [parseLine, stageNames, applyFieldLines_id _ _ _ a1 a2 a3 a4,
        applyFieldLines_id _ _ _ b1 b2 b3 b4,
        applyFieldLines_id _ _ _ c1 c2 c3 c4, keyLineStep, hp,
        parse_key_line_none_of_not_starts _ _ hb1,
        parse_key_line_none_of_not_starts _ _ hb2, condUpdate]
    · obtain ⟨hf, hb1, hb2⟩ := keyline_context_boot1 _ hs
      obtain ⟨a1, a2, a3, a4⟩ := hf "boot0" (by simp [stageNames])
      obtain ⟨b1, b2, b3, b4⟩ := hf "boot1" (by simp [stageNames])
      obtain ⟨c1, c2, c3, c4⟩ := hf "loader" (by simp [stageNames])
      simp [parseLine, stageNames, applyFieldLines_id _ _ _ a1 a2 a3 a4,
        applyFieldLines_id _ _ _ b1 b2 b3 b4,
        applyFieldLines_id _ _ _ c1 c2 c3 c4, keyLineStep, hp,
        parse_key_line_none_of_not_starts _ _ hb1,
        parse_key_line_none_of_not_starts _ _ hb2, condUpdate]
    · obtain ⟨hf, hb1, hb2⟩ := keyline_context_loader _ hs
      obtain ⟨a1, a2, a3, a4⟩ := hf "boot0" (by simp [stageNames])
      obtain ⟨b1, b2, b3, b4⟩ := hf "boot1" (by simp [stageNames])
      obtain ⟨c1, c2, c3, c4⟩ := hf "loader" (by simp [stageNames])
      simp [parseLine, stageNames, applyFieldLines_id _ _ _ a1 a2 a3 a4,
        applyFieldLines_id _ _ _ b1 b2 b3 b4,
        applyFieldLines_id _ _ _ c1 c2 c3 c4, keyLineStep, hp,
        parse_key_line_none_of_not_starts _ _ hb1,
        parse_key_line_none_of_not_starts _ _ hb2, condUpdate]

/-- C5 witness: the well-formed line `"Boot0: key 2/true (beta) -> x"`
records slot 2 and tag `"beta"` on boot0, by the amended theorem. -/
theorem key_line_extraction_amended_witness :
    parse_key_line "Boot0: key 2/true (beta) -> x" "Boot0:" =
      .ok (some (2, "beta")) ∧
    parseLine [] "Boot0: key 2/true (beta) -> x" =
      .ok (updateStage [] "boot0" (keyAssign (2, "beta"))) :=
  ⟨key_line_extraction_amended.1 "Boot0: key 2/true (beta) -> x" "Boot0:"
      7 1 2 18 23 rfl rfl rfl rfl rfl rfl (by decide),
    key_line_extraction_amended.2.1 [] "Boot0: key 2/true (beta) -> x"
      2 "beta" "Boot0:" "boot0" (Or.inl ⟨rfl, rfl⟩) rfl⟩

theorem decode_inputs_ok_inv (pk hh sh : String) (ahex : Option String)
    (d : DecodedInputs) (h : decode_inputs pk hh sh ahex = .ok d) :
    resolve_pubkey pk = .ok d.pubkey_bytes ∧
    hexDecode hh = .ok d.hash_bytes ∧ d.hash_bytes.length = 64 ∧
    hexDecode sh = .ok d.sig_bytes ∧ d.sig_bytes.length = 64 ∧
    ((∃ a, ahex = some a ∧ a ≠ "" ∧ hexDecode a = .ok (d.aad_bytes.getD []) ∧
        d.aad_bytes.isSome = true) ∨
      ((ahex = none ∨ ahex = some "") ∧ d.aad_bytes = none)) := by
  unfold decode_inputs at h
  cases hr : resolve_pubkey pk with
  | error e => rw [hr] at h; simp at h
  | ok pkb =>
    rw [hr] at h
    cases hhd : hexDecode hh with
    | error e => rw [hhd] at h; simp at h
    | ok hb =>
      rw [hhd] at h
      dsimp only at h
      by_cases hl : hb.length = 64
      · rw [if_neg (not_not_intro hl)] at h
        cases hsd : hexDecode sh with
        | error e => rw [hsd] at h; simp at h
        | ok sb =>
          rw [hsd] at h
          dsimp only at h
          by_cases hsl : sb.length = 64
          · rw [if_neg (not_not_intro hsl)] at h
            cases ahex with
            | none =>
              simp only [Except.ok.injEq] at h
              subst h
              dsimp only
              exact ⟨rfl, rfl, hl, rfl, hsl, Or.inr ⟨Or.inl rfl, rfl⟩⟩
            | some a =>
              dsimp only at h
              by_cases ha : a = ""
              · subst ha
                rw [if_neg (by simp)] at h
                simp only [Except.ok.injEq] at h
                subst h
                dsimp only
                exact ⟨rfl, rfl, hl, rfl, hsl, Or.inr ⟨Or.inr rfl, rfl⟩⟩
              · rw [if_pos ha] at h
                cases had : hexDecode a with
                | error e => rw [had] at h; simp at h
                | ok ab =>
                  rw [had] at h
                  simp only [Except.ok.injEq] at h
                  subst h
                  dsimp only
                  exact ⟨rfl, rfl, hl, rfl, hsl,
                    Or.inl ⟨a, rfl, ha, had, rfl⟩⟩
          · rw [if_pos hsl] at h; simp at h
      · rw [if_pos hl] at h; simp at h

theorem verify_single_ok_branch (co : CryptoOps) (pk hh sh : String)
    (ahex : Option String) (name : String) (d : DecodedInputs)
    (h : decode_inputs pk hh sh ahex = .ok d) :
    verify_single co pk hh sh ahex name =
      (if co.keyParse d.pubkey_bytes = false then .error .invalidPublicKey
       else if (if d.aad_bytes.isSome then
            co.edVerify d.pubkey_bytes
              ((d.aad_bytes.getD []) ++ co.sha256 d.hash_bytes) d.sig_bytes
          else co.edVerifyPh d.pubkey_bytes d.hash_bytes d.sig_bytes) then
          .ok ()
        else .error (.signatureMismatch name)) := by
  unfold verify_single
  rw [h]
  rfl

/-- C1: in a `verify_single` call whose decode phase succeeds, the mode is
FIDO2 (CompositeSigned) iff the auxiliary-data hex argument is present and
non-empty; and in that mode the checked message is exactly the decoded
auxiliary-data bytes followed immediately by the 32-byte SHA-256 digest of
the 64-byte primary digest, checked by the ordinary (non-prehashed)
Ed25519 verifier. -/
theorem verify_single_composite_mode (co : CryptoOps) (pk hh sh : String)
    (ahex : Option String) (name : String) (d : DecodedInputs)
    (h : decode_inputs pk hh sh ahex = .ok d) :
    ((d.aad_bytes.isSome = true) ↔ ∃ a, ahex = some a ∧ a ≠ "") ∧
    (∀ ab, d.aad_bytes = some ab →
      (∃ a, ahex = some a ∧ a ≠ "" ∧ hexDecode a = .ok ab) ∧
      d.hash_bytes.length = 64 ∧ (co.sha256 d.hash_bytes).length = 32 ∧
      verify_single co pk hh sh ahex name =
        (if co.keyParse d.pubkey_bytes = false then .error .invalidPublicKey
         else if co.edVerify d.pubkey_bytes (ab ++ co.sha256 d.hash_bytes)
             d.sig_bytes then .ok ()
         else .error (.signatureMismatch name))) := by
  obtain ⟨hr, hhd, hl, hsd, hsl, haad⟩ := decode_inputs_ok_inv _ _ _ _ _ h
  constructor
  · constructor
    · intro hsome
      rcases haad with ⟨a, ha1, ha2, _, _⟩ | ⟨_, hnone⟩
      · exact ⟨a, ha1, ha2⟩
      · rw [hnone] at hsome; simp at hsome
    · rintro ⟨a, rfl, ha2⟩
      rcases haad with ⟨a', ha1', _, _, hsome⟩ | ⟨hcase, _⟩
      · exact hsome
      · rcases hcase with h' | h'
        · simp at h'
        · rw [Option.some.injEq] at h'
          exact absurd h' ha2
  · intro ab hab
    refine ⟨?_, hl, co.sha256_len _, ?_⟩
    · rcases haad with ⟨a, ha1, ha2, hdec, _⟩ | ⟨_, hnone⟩
      · rw [hab] at hdec
        exact ⟨a, ha1, ha2, by simpa using hdec⟩
      · rw [hnone] at hab; simp at hab
    · rw [verify_single_ok_branch co pk hh sh ahex name d h, hab]
      simp

/-- C1 witness: a concrete composite-mode call with all-zero key/digest
hex and AAD `"ff"`, evaluated with the trivial crypto instantiation. -/
theorem verify_single_composite_mode_witness :
    verify_single trivCrypto ⟨List.replicate 64 '0'⟩ ⟨List.replicate 128 '0'⟩
        ⟨List.replicate 128 '0'⟩ (some "ff") "x" =
      .error (.signatureMismatch "x") ∧
    (trivCrypto.sha256 (List.replicate 64 0)).length = 32 := by
  have h : decode_inputs (⟨List.replicate 64 '0'⟩ : String)
      ⟨List.replicate 128 '0'⟩ ⟨List.replicate 128 '0'⟩ (some "ff") =
      .ok ⟨List.replicate 32 0, List.replicate 64 0, List.replicate 64 0,
        some [255]⟩ := by rfl
  obtain ⟨hiff, hcomp⟩ := verify_single_composite_mode trivCrypto
    ⟨List.replicate 64 '0'⟩ ⟨List.replicate 128 '0'⟩ ⟨List.replicate 128 '0'⟩
    (some "ff") "x" _ h
  obtain ⟨hex1, hlen, hsha, heq⟩ := hcomp [255] rfl
  exact ⟨by rw [heq]; rfl, hsha⟩

/-- C2: in PrehashSigned mode (no AAD, or empty AAD), `verify_single`
checks the signature against the 64-byte digest through the
`verify_prehashed` entry point applied to the `PrecomputedHash` adapter;
the adapter ignores every sequence of update calls and always finalizes to
the stored digest, so the prehashed check receives exactly the supplied
64-byte digest. -/
theorem verify_single_prehash_adapter (co : CryptoOps) (pk hh sh : String)
    (ahex : Option String) (name : String) (d : DecodedInputs)
    (hmode : ahex = none ∨ ahex = some "")
    (h : decode_inputs pk hh sh ahex = .ok d) :
    d.aad_bytes = none ∧ d.hash_bytes.length = 64 ∧
    verify_single co pk hh sh ahex name =
      (if co.keyParse d.pubkey_bytes = false then .error .invalidPublicKey
       else if verify_prehashed co d.pubkey_bytes ⟨d.hash_bytes⟩ d.sig_bytes
         then .ok ()
       else .error (.signatureMismatch name)) ∧
    (∀ (hash0 : List Nat) (updates : List (List Nat)),
      ((updates.foldl PrecomputedHash.update ⟨hash0⟩).finalize) = hash0) ∧
    (∀ (pkb sg : List Nat) (ph : PrecomputedHash),
      verify_prehashed co pkb ph sg = co.edVerifyPh pkb ph.finalize sg) ∧
    verify_prehashed co d.pubkey_bytes ⟨d.hash_bytes⟩ d.sig_bytes =
      co.edVerifyPh d.pubkey_bytes d.hash_bytes d.sig_bytes := by
  obtain ⟨hr, hhd, hl, hsd, hsl, haad⟩ := decode_inputs_ok_inv _ _ _ _ _ h
  have hnone : d.aad_bytes = none := by
    rcases haad with ⟨a, ha1, ha2, _, _⟩ | ⟨_, hn⟩
    · rcases hmode with rfl | rfl
      · simp at ha1
      · rw [Option.some.injEq] at ha1
        exact absurd ha1.symm ha2
    · exact hn
  have hfold : ∀ (p : PrecomputedHash) (us : List (List Nat)),
      us.foldl PrecomputedHash.update p = p := by
    intro p us
    induction us generalizing p with
    | nil => rfl
    | cons u us ih => exact ih _
  refine ⟨hnone, hl, ?_, ?_, fun pkb sg ph => rfl, rfl⟩
  · rw [verify_single_ok_branch co pk hh sh ahex name d h, hnone]
    rfl
  · intro hash0 updates
    rw [hfold]
    rfl

set_option maxRecDepth 8192 in
/-- C2 witness: a concrete prehash-mode call (no AAD) plus an adapter fed
two update calls, evaluated with the trivial crypto instantiation. -/
theorem verify_single_prehash_adapter_witness :
    verify_single trivCrypto ⟨List.replicate 64 '1'⟩ ⟨List.replicate 128 '0'⟩
        ⟨List.replicate 128 '0'⟩ none "x" = .error (.signatureMismatch "x") ∧
    (([[1], [2]] : List (List Nat)).foldl PrecomputedHash.update
        ⟨List.replicate 64 0⟩).finalize = List.replicate 64 0 := by
  have h : decode_inputs (⟨List.replicate 64 '1'⟩ : String)
      ⟨List.replicate 128 '0'⟩ ⟨List.replicate 128 '0'⟩ none =
      .ok ⟨List.replicate 32 17, List.replicate 64 0, List.replicate 64 0,
        none⟩ := by rfl
  obtain ⟨hn, hl, heq, hupd, hph, hph2⟩ := verify_single_prehash_adapter
    trivCrypto ⟨List.replicate 64 '1'⟩ ⟨List.replicate 128 '0'⟩
    ⟨List.replicate 128 '0'⟩ none "x" _ (Or.inl rfl) h
  exact ⟨by rw [heq]; rfl, hupd (List.replicate 64 0) [[1], [2]]⟩

theorem decode_inputs_error_shape (pk hh sh : String) (ahex : Option String)
    (e : VerifyErr) (h : decode_inputs pk hh sh ahex = .error e) :
    (∃ er, e = .resolveKey er) ∨ (∃ eh, e = .invalidHashHex eh) ∨
    (∃ n, e = .hashWrongLength n) ∨ (∃ eh, e = .invalidSigHex eh) ∨
    (∃ n, e = .sigWrongLength n) ∨ (∃ eh, e = .invalidAadHex eh) := by
  unfold decode_inputs at h
  cases hr : resolve_pubkey pk with
  | error er =>
    rw [hr] at h
    simp only [Except.error.injEq] at h
    exact Or.inl ⟨er, h.symm⟩
  | ok pkb =>
    rw [hr] at h
    cases hhd : hexDecode hh with
    | error eh =>
      rw [hhd] at h
      simp only [Except.error.injEq] at h
      exact Or.inr (Or.inl ⟨eh, h.symm⟩)
    | ok hb =>
      rw [hhd] at h
      dsimp only at h
      by_cases hl : hb.length = 64
      · rw [if_neg (not_not_intro hl)] at h
        cases hsd : hexDecode sh with
        | error eh =>
          rw [hsd] at h
          simp only [Except.error.injEq] at h
          exact Or.inr (Or.inr (Or.inr (Or.inl ⟨eh, h.symm⟩)))
        | ok sb =>
          rw [hsd] at h
          dsimp only at h
          by_cases hsl : sb.length = 64
          · rw [if_neg (not_not_intro hsl)] at h
            cases ahex with
            | none => simp at h
            | some a =>
              dsimp only at h
              by_cases ha : a = ""
              · subst ha
                rw [if_neg (by simp)] at h
                simp at h
              · rw [if_pos ha] at h
                cases had : hexDecode a with
                | error eh =>
                  rw [had] at h
                  simp only [Except.error.injEq] at h
                  exact Or.inr (Or.inr (Or.inr (Or.inr (Or.inr ⟨eh, h.symm⟩))))
                | ok ab => rw [had] at h; simp at h
          · rw [if_pos hsl] at h
            simp only [Except.error.injEq] at h
            exact Or.inr (Or.inr (Or.inr (Or.inr (Or.inl ⟨_, h.symm⟩))))
      · rw [if_pos hl] at h
        simp only [Except.error.injEq] at h
        exact Or.inr (Or.inr (Or.inl ⟨_, h.symm⟩))

/-- C8: when the decode/resolution phase of `verify_single` fails, the call
returns that decode error for **every** instantiation of the cryptographic
routines (so no signature-verification operation can influence the
outcome), and the returned error is never the signature-mismatch error nor
the invalid-public-key error — decode failures are never conflated with a
cryptographic failure. -/
theorem decode_errors_precede_crypto (pk hh sh : String) (ahex : Option String)
    (name : String) (e : VerifyErr)
    (h : decode_inputs pk hh sh ahex = .error e) :
    (∀ co : CryptoOps, verify_single co pk hh sh ahex name = .error e) ∧
    (∀ nm, e ≠ .signatureMismatch nm) ∧ e ≠ .invalidPublicKey := by
  refine ⟨?_, ?_, ?_⟩
  · intro co
    unfold verify_single
    rw [h]
  · intro nm
    rcases decode_inputs_error_shape pk hh sh ahex e h with
      ⟨er, rfl⟩ | ⟨eh, rfl⟩ | ⟨n, rfl⟩ | ⟨eh, rfl⟩ | ⟨n, rfl⟩ | ⟨eh, rfl⟩ <;>
      simp
  · rcases decode_inputs_error_shape pk hh sh ahex e h with
      ⟨er, rfl⟩ | ⟨eh, rfl⟩ | ⟨n, rfl⟩ | ⟨eh, rfl⟩ | ⟨n, rfl⟩ | ⟨eh, rfl⟩ <;>
      simp

/-- C8 witness: the non-hex public key `"zz"` fails resolution with the
invalid-hex error, and `verify_single` returns exactly that error under
the trivial crypto instantiation. -/
theorem decode_errors_precede_crypto_witness :
    decode_inputs "zz" "" "" none =
      .error (.resolveKey (.invalidHex (.invalidHexCharacter 'z' 0))) ∧
    verify_single trivCrypto "zz" "" "" none "x" =
      .error (.resolveKey (.invalidHex (.invalidHexCharacter 'z' 0))) ∧
    (∀ nm, (VerifyErr.resolveKey (.invalidHex (.invalidHexCharacter 'z' 0))) ≠
      .signatureMismatch nm) :=
  ⟨rfl, (decode_errors_precede_crypto "zz" "" "" none "x" _ rfl).1 trivCrypto,
    (decode_errors_precede_crypto "zz" "" "" none "x" _ rfl).2.1⟩

/-- C3: key-resolution precedence for a stage record without an explicit
key argument.  A recorded tag decides alone (the slot is ignored entirely,
even when the tag is unrecognized — no fallback); with no tag, a recorded
slot maps 0→bao1, 1→bao2, 2→beta, 3→developer and anything else is a
failure (no fallback to the developer default); only with neither tag nor
slot is the developer key used.  A resolution failure makes the stage
`skipped` (it contributes no result and never reaches `verify_single`),
and one stage's processing depends only on that stage's own record. -/
theorem key_resolution_precedence :
    (∀ (st : StageData) (t : String), st.key_tag = some t →
      (∀ sl, resolve_stage_key { st with key_slot := sl } =
        resolve_stage_key st) ∧
      (∀ k, tag_to_key_name t = some k → resolve_stage_key st = .ok k) ∧
      (tag_to_key_name t = none →
        resolve_stage_key st = .error (.unknownTag t))) ∧
    (∀ (st : StageData) (slot : Nat), st.key_tag = none →
      st.key_slot = some slot →
      (slot = 0 → resolve_stage_key st = .ok "bao1") ∧
      (slot = 1 → resolve_stage_key st = .ok "bao2") ∧
      (slot = 2 → resolve_stage_key st = .ok "beta") ∧
      (slot = 3 → resolve_stage_key st = .ok "developer") ∧
      (slot ≠ 0 → slot ≠ 1 → slot ≠ 2 → slot ≠ 3 →
        resolve_stage_key st = .error (.unknownSlot slot))) ∧
    (∀ st : StageData, st.key_tag = none → st.key_slot = none →
      resolve_stage_key st = .ok "developer") ∧
    (∀ (co : CryptoOps) (m : StageMap) (sn : String) (st : StageData)
        (r : SkipReason),
      lookupSD m sn = some st → resolve_stage_key st = .error r →
      (st.sig.isSome = true → st.hash.isSome = true →
        process_stage co m sn = .skipped r) ∧
      stage_result (.skipped r) sn = none) ∧
    (∀ (co : CryptoOps) (m m' : StageMap) (sn : String),
      lookupSD m sn = lookupSD m' sn →
      process_stage co m sn = process_stage co m' sn) := by
  refine ⟨?_, ?_, ?_, ?_, ?_⟩
  · intro st t h
    refine ⟨fun sl => ?_, fun k hk => ?_, fun hk => ?_⟩
    · simp [resolve_stage_key, h]
    · simp [resolve_stage_key, h, hk]
    · simp [resolve_stage_key, h, hk]
  · intro st slot ht hs
    refine ⟨fun h0 => ?_, fun h1 => ?_, fun h2 => ?_, fun h3 => ?_,
      fun h0 h1 h2 h3 => ?_⟩
    · subst h0; simp [resolve_stage_key, ht, hs]
    · subst h1; simp [resolve_stage_key, ht, hs]
    · subst h2; simp [resolve_stage_key, ht, hs]
    · subst h3; simp [resolve_stage_key, ht, hs]
    · simp [resolve_stage_key, ht, hs, h0, h1, h2, h3]
  · intro st ht hs
    simp [resolve_stage_key, ht, hs]
  · intro co m sn st r hl hr
    constructor
    · intro hsig hhash
      obtain ⟨sg, hsg⟩ := Option.isSome_iff_exists.mp hsig
      obtain ⟨hv, hh2⟩ := Option.isSome_iff_exists.mp hhash
      simp [process_stage, hl, hsg, hh2, hr]
    · rfl
  · intro co m m' sn h
    unfold process_stage
    rw [h]

/-- C3 witness: a padded `"dev "` tag resolves through the tag path to the
developer key even with slot 0 recorded; an unknown tag fails without
falling back to its valid slot; slot 9 fails without falling back to the
developer default; and an empty record defaults to the developer key. -/
theorem key_resolution_precedence_witness :
    resolve_stage_key { key_tag := some "dev ", key_slot := some 0 } =
      .ok "developer" ∧
    resolve_stage_key { key_tag := some "zzz", key_slot := some 0 } =
      .error (.unknownTag "zzz") ∧
    resolve_stage_key { key_slot := some 9 } = .error (.unknownSlot 9) ∧
    resolve_stage_key {} = .ok "developer" :=
  ⟨(key_resolution_precedence.1 _ "dev " rfl).2.1 "developer" rfl,
    (key_resolution_precedence.1 _ "zzz" rfl).2.2 rfl,
    (key_resolution_precedence.2.1 _ 9 rfl rfl).2.2.2.2
      (by decide) (by decide) (by decide) (by decide),
    key_resolution_precedence.2.2.1 {} rfl rfl⟩

/-- C9 counterexample: the claim says that "no complete records found" is a
fatal failure terminating the run with failure status.  But an input whose
only record is incomplete (a boot0 signature with no digest) parses to a
non-empty stage map, so the fatal check (`stages.is_empty()`) does not
fire; the stage is skipped as incomplete, no outcome is recorded, and the
run exits with success status 0. -/
theorem incomplete_only_input_exits_zero :
    parse_audit_output "boot0.sig:aa" = .ok [("boot0", { sig := some "aa" })] ∧
    main_stdin trivCrypto "boot0.sig:aa" "all" = .finished [] 0 := by
  exact ⟨rfl, rfl⟩

/-- C9 (amended): a stage record missing its signature or digest is
reported incomplete and never reaches the cryptographic check (it records
no outcome).  Besides per-stage verification failures (exit code 1 exactly
when some recorded outcome failed), the only process-level terminations
are: no input at all (`fatalNoInput` iff the input is empty), no parsed
stage data at all (`fatalNoData` iff the parse yields an empty map — an
input with only incomplete records is *not* fatal), and the parser panic
of C4. -/
theorem stdin_fatal_characterization :
    (∀ (co : CryptoOps) (m : StageMap) (sn : String) (st : StageData),
      lookupSD m sn = some st → (st.sig = none ∨ st.hash = none) →
      process_stage co m sn = .incomplete ∧
        stage_result (process_stage co m sn) sn = none) ∧
    (∀ (co : CryptoOps) (input nameArg : String),
      (main_stdin co input nameArg = .fatalNoInput ↔ input = "") ∧
      (main_stdin co input nameArg = .fatalNoData ↔
        input ≠ "" ∧ parse_audit_output input = .ok []) ∧
      (main_stdin co input nameArg = .panicked ↔
        input ≠ "" ∧ parse_audit_output input = .error ()) ∧
      (∀ r c, main_stdin co input nameArg = .finished r c →
        ((c = 1 ↔ ∃ sn, (sn, false) ∈ r) ∧ (c = 0 ∨ c = 1)))) := by
  constructor
  · intro co m sn st hl hmiss
    have hp : process_stage co m sn = .incomplete := by
      rcases hmiss with hm | hm <;>
        rcases hs : st.sig with _ | sg <;> rcases hh : st.hash with _ | hv <;>
        simp_all [process_stage, hl]
    exact ⟨hp, by rw [hp]; rfl⟩
  · intro co input nameArg
    by_cases hin : input = ""
    · subst hin
      refine ⟨by simp [main_stdin], by simp [main_stdin], by simp [main_stdin],
        fun r c h => ?_⟩
      simp [main_stdin] at h
    · cases hp : parse_audit_output input with
      | error e =>
        cases e
        refine ⟨by simp [main_stdin, hin, hp], by simp [main_stdin, hin, hp],
          by simp [main_stdin, hin, hp], fun r c h => ?_⟩
        simp [main_stdin, hin, hp] at h
      | ok stages =>
        by_cases hne : stages = []
        · subst hne
          refine ⟨by simp [main_stdin, hin, hp], by simp [main_stdin, hin, hp],
            by simp [main_stdin, hin, hp], fun r c h => ?_⟩
          simp [main_stdin, hin, hp] at h
        · refine ⟨by simp [main_stdin, hin, hp, hne],
            by simp [main_stdin, hin, hp, hne],
            by simp [main_stdin, hin, hp, hne], fun r c h => ?_⟩
          simp only [main_stdin, if_neg hin, hp, if_neg hne,
            RunResult.finished.injEq] at h
          obtain ⟨hr, hc⟩ := h
          rw [hr] at hc
          by_cases hall : r.all (fun x => x.2) = true
          · rw [if_pos hall] at hc
            subst hc
            refine ⟨⟨fun h10 => absurd h10 (by decide), ?_⟩, Or.inl rfl⟩
            rintro ⟨sn, hsn⟩
            have h2 := List.all_eq_true.mp hall _ hsn
            simp at h2
          · rw [Bool.not_eq_true] at hall
            rw [if_neg (by simp [hall])] at hc
            subst hc
            refine ⟨⟨fun _ => ?_, fun _ => rfl⟩, Or.inr rfl⟩
            obtain ⟨p, hmem, hp2⟩ := List.all_eq_false.mp hall
            refine ⟨p.1, ?_⟩
            have hpf : p = (p.1, false) := by
              obtain ⟨a, b⟩ := p
              rw [Bool.not_eq_true] at hp2
              simp only at hp2
              rw [hp2]
            rw [← hpf]
            exact hmem

/-- C9 witness: an incomplete boot0 record is reported incomplete; empty
input is `fatalNoInput`; an input with no attestation data at all is
`fatalNoData`; all by the amended theorem at concrete inputs. -/
theorem stdin_fatal_characterization_witness :
    process_stage trivCrypto [("boot0", { sig := some "aa" })] "boot0" =
      .incomplete ∧
    main_stdin trivCrypto "" "all" = .fatalNoInput ∧
    main_stdin trivCrypto "zzz" "all" = .fatalNoData :=
  ⟨(stdin_fatal_characterization.1 trivCrypto
      [("boot0", { sig := some "aa" })] "boot0" { sig := some "aa" }
      rfl (Or.inr rfl)).1,
    ((stdin_fatal_characterization.2 trivCrypto "" "all").1).mpr rfl,
    ((stdin_fatal_characterization.2 trivCrypto "zzz" "all").2.1).mpr
      ⟨by decide, rfl⟩⟩

/-- C10: a requested stage name absent from the parsed mapping produces no
verification attempt and no recorded outcome, and a run in which every
requested stage is absent records zero outcomes and exits with success
status 0. -/
theorem absent_stage_no_outcome :
    (∀ (co : CryptoOps) (m : StageMap) (sn : String),
      lookupSD m sn = none → process_stage co m sn = .notPresent ∧
        stage_result (process_stage co m sn) sn = none) ∧
    (∀ (co : CryptoOps) (input nameArg : String) (m : StageMap),
      input ≠ "" → parse_audit_output input = .ok m → m ≠ [] →
      (∀ sn ∈ stages_to_verify nameArg, lookupSD m sn = none) →
      main_stdin co input nameArg = .finished [] 0) := by
  constructor
  · intro co m sn h
    have hp : process_stage co m sn = .notPresent := by simp [process_stage, h]
    exact ⟨hp, by rw [hp]; rfl⟩
  · intro co input nameArg m hin hp hne habs
    have hres : (stages_to_verify nameArg).filterMap
        (fun sn => stage_result (process_stage co m sn) sn) = [] := by
      rw [List.filterMap_eq_nil_iff]
      intro sn hsn
      have h1 : process_stage co m sn = .notPresent := by
        simp [process_stage, habs sn hsn]
      rw [h1]
      rfl
    simp [main_stdin, hin, hp, hne, hres]

/-- C10 witness: requesting only `loader` on an input that parses boot0
data only records zero outcomes and exits 0, by the theorem at that
input. -/
theorem absent_stage_no_outcome_witness :
    main_stdin trivCrypto "boot0.sig:aa" "loader" = .finished [] 0 :=
  absent_stage_no_outcome.2 trivCrypto "boot0.sig:aa" "loader"
    [("boot0", { sig := some "aa" })] (by decide) rfl (by decide) (by decide)
